import Mathlib

/-! PCI conflict resolution of onos-pci.

A shallow embedding of `pkg/controller/pci.go` (the conflict resolution engine:
`getEmptyPciMap`, `neighborTraversal`, `getAvailablePci`, `getEntryWithNeighborCGI`,
`isCGIEqual` and the event handling of `resolvePciConflict`) together with the
properties of the specification that concern them.

Conventions of the embedding.

* Go's `int32` is the subtype `int32` of `Int`; the only arithmetic the controller
  performs on it is the increment `i++`, which wraps modulo `2^32`.
* Go's `map[int32]bool` is an association list with one item per key (`PciMap`);
  indexing a missing key yields `false`, as in Go. The order in which `range`
  enumerates a map is not fixed by Go, so `getAvailablePci` takes the enumeration
  as an argument.
* The metric store is represented by the sequence of entries that `Entries`
  produces; it is not modified while one event is being resolved.
* A loop whose termination depends on the data (`getEmptyPciMap`) carries a fuel
  argument; `none` means that the fuel did not suffice.
* Nil protobuf pointers behave like absent values, as the generated getters do;
  every entry carries a metric.
-/

namespace OnosPci

/-! ## Machine integers -/

/-- Go's `int32`: the integers from `-2^31` to `2^31 - 1`. -/
def int32 : Type := {x : Int // -2147483648 ≤ x ∧ x ≤ 2147483647}

instance : DecidableEq int32 := fun a b =>
  decidable_of_iff (a.val = b.val) Subtype.ext_iff.symm

instance : LE int32 := ⟨fun a b => a.val ≤ b.val⟩

instance : LT int32 := ⟨fun a b => a.val < b.val⟩

instance (a b : int32) : Decidable (a ≤ b) := inferInstanceAs (Decidable (a.val ≤ b.val))

instance (a b : int32) : Decidable (a < b) := inferInstanceAs (Decidable (a.val < b.val))

/-- Conversion of an integer to `int32`, wrapping modulo `2^32`. -/
def int32.ofInt (x : Int) : int32 :=
  ⟨(x + 2147483648) % 4294967296 - 2147483648, by constructor <;> omega⟩

instance (n : Nat) : OfNat int32 n := ⟨int32.ofInt n⟩

/-- Go's `i++` on an `int32`. -/
def int32.inc (i : int32) : int32 := int32.ofInt (i.val + 1)

/-- The largest `int32`. -/
def int32.max : int32 := ⟨2147483647, by decide⟩

/-! ## Errors -/

/-- Errors of `onos-lib-go/pkg/errors` that the controller creates. -/
inductive Error where
  | Unavailable (msg : String)
  deriving DecidableEq, Repr

deriving instance DecidableEq for Except

/-! ## The occupancy map -/

/-- Go's `map[int32]bool`: an association list holding each key once. -/
abbrev PciMap := List (int32 × Bool)

/-- Go's `m[k]`: the stored value, `false` for a missing key. -/
def PciMap.get : PciMap → int32 → Bool
  | [], _ => false
  | (k', v) :: rest, k => if k' = k then v else PciMap.get rest k

/-- Go's `m[k] = v`. -/
def PciMap.set : PciMap → int32 → Bool → PciMap
  | [], k, v => [(k, v)]
  | (k', v') :: rest, k, v =>
    if k' = k then (k, v) :: rest else (k', v') :: PciMap.set rest k v

/-- The keys of a map. -/
def PciMap.keys (m : PciMap) : List int32 := m.map Prod.fst

/-! ## Data model -/

/-- Payload of an NR cell global identity (`e2sm-common-ies`); only the key
parsers look inside. -/
structure NrCgi where
  PLmnidentity : List Nat
  NRcellIdentity : List Nat
  deriving DecidableEq, Repr

/-- Payload of an EUTRA cell global identity (`e2sm-common-ies`). -/
structure EutraCgi where
  PLmnidentity : List Nat
  EUtracellIdentity : List Nat
  deriving DecidableEq, Repr

/-- The message `e2smrccomm.Cgi`: a oneof of an NR or an EUTRA identity. The
wrapped pointer may be nil, and so may the oneof itself (`unset`). -/
inductive Cgi where
  | NRCgi (c : Option NrCgi)
  | EUtraCgi (c : Option EutraCgi)
  | unset
  deriving DecidableEq, Repr

/-- Getter `GetNRCgi`. -/
def Cgi.GetNRCgi : Cgi → Option NrCgi
  | .NRCgi c => c
  | _ => none

/-- Getter `GetEUtraCgi`. -/
def Cgi.GetEUtraCgi : Cgi → Option EutraCgi
  | .EUtraCgi c => c
  | _ => none

/-- The helpers of `pkg/utils/parse` and `pkg/utils/decode` that `isCGIEqual`
calls; they are not part of the controller and are taken as parameters. A parser
yields the PLMN bytes, the cell id and the CGI type, or `none` when it fails. -/
structure MetricKeyParsers where
  GetNRMetricKey : NrCgi → Option (List Nat × Nat × Nat)
  GetEUTRAMetricKey : EutraCgi → Option (List Nat × Nat × Nat)
  PlmnIDToUint32 : List Nat → Nat

/-- The fields of `NeighborCellItem`'s NR choice that the traversal reads. -/
structure RanTypeChoiceNr where
  NRCgi : Option NrCgi
  NRPci : int32
  NRarfcn : int32
  deriving DecidableEq

/-- The fields of `NeighborCellItem`'s EUTRA choice that the traversal reads. -/
structure RanTypeChoiceEutra where
  EUtraCgi : Option EutraCgi
  EUtraPci : int32
  EUtraArfcn : int32
  deriving DecidableEq

/-- The message `e2smrc.NeighborCellItem`: one neighbor record. -/
inductive NeighborCellItem where
  | nr (x : RanTypeChoiceNr)
  | eutra (x : RanTypeChoiceEutra)
  | unset
  deriving DecidableEq

/-- Getter `GetRanTypeChoiceNr`. -/
def NeighborCellItem.GetRanTypeChoiceNr : NeighborCellItem → Option RanTypeChoiceNr
  | .nr x => some x
  | _ => none

/-- Getter `GetRanTypeChoiceEutra`. -/
def NeighborCellItem.GetRanTypeChoiceEutra : NeighborCellItem → Option RanTypeChoiceEutra
  | .eutra x => some x
  | _ => none

/-- One range `types.PCIPool` of permitted PCIs. -/
structure PCIPool where
  LowerPci : int32
  UpperPci : int32
  deriving DecidableEq

/-- The live radio state of a cell. -/
structure CellMetric where
  PCI : int32
  ARFCN : int32
  deriving DecidableEq

/-- The key `metrics.Key` of a store entry. -/
structure Key where
  CellGlobalID : Cgi
  deriving DecidableEq

/-- The constructor `metrics.NewKey`. -/
def NewKey (id : Cgi) : Key := ⟨id⟩

/-- The value of a store entry. -/
structure EntryValue where
  Metric : CellMetric
  Neighbors : List NeighborCellItem
  PCIPoolList : List PCIPool
  deriving DecidableEq

/-- The store's unit of record `metrics.Entry`. -/
structure Entry where
  Key : Key
  Value : EntryValue
  deriving DecidableEq

/-- Modelled from the spec: the event types of the store's watch stream, which
"emits Created/Updated/Deleted events". -/
inductive EventType where
  | Created
  | Updated
  | Deleted
  deriving DecidableEq

/-- A store event `metrics.Event`. -/
structure Event where
  Key : Key
  Value : Entry
  Typ : EventType

/-! ## `isCGIEqual` and the store lookup -/

/-- The comparison of the decoded triples shared by both branches of `isCGIEqual`. -/
def sameMetricKey (kp : MetricKeyParsers) (s t : List Nat × Nat × Nat) : Bool :=
  decide (kp.PlmnIDToUint32 s.1 = kp.PlmnIDToUint32 t.1) && decide (s.2.1 = t.2.1) &&
    decide (s.2.2 = t.2.2)

/-- The function `isCGIEqual` (pci.go, lines 187-223). -/
def isCGIEqual (kp : MetricKeyParsers) (s t : Cgi) : Bool :=
  match s.GetNRCgi, t.GetNRCgi with
  | some sn, some tn =>
    match kp.GetNRMetricKey sn with
    | none => false
    | some sKey =>
      match kp.GetNRMetricKey tn with
      | none => false
      | some tKey => sameMetricKey kp sKey tKey
  | _, _ =>
    match s.GetEUtraCgi, t.GetEUtraCgi with
    | some se, some te =>
      match kp.GetEUTRAMetricKey se with
      | none => false
      | some sKey =>
        match kp.GetEUTRAMetricKey te with
        | none => false
        | some tKey => sameMetricKey kp sKey tKey
    | _, _ => false

/-- The function `getEntryWithNeighborCGI` (pci.go, lines 170-185): every entry
the store produces is received, and each matching one overwrites `targetEntry`. -/
def getEntryWithNeighborCGI (kp : MetricKeyParsers) (store : List Entry) (id : Cgi) :
    Option Entry :=
  store.foldl
    (fun targetEntry entry =>
      if isCGIEqual kp id entry.Key.CellGlobalID then some entry else targetEntry)
    none

/-! ## `getEmptyPciMap` -/

/-- The inner loop `for i := LowerPci; i <= UpperPci; i++` of `getEmptyPciMap`;
each unit of fuel pays for one iteration. -/
def pciRangeLoop : Nat → int32 → int32 → PciMap → Option PciMap
  | 0, i, upper, pciMap => if i ≤ upper then none else some pciMap
  | fuel + 1, i, upper, pciMap =>
    if i ≤ upper then pciRangeLoop fuel i.inc upper (PciMap.set pciMap i false)
    else some pciMap

/-- The outer loop of `getEmptyPciMap` over the pool list, from the map built so far. -/
def getEmptyPciMapFrom (fuel : Nat) : List PCIPool → PciMap → Option (Except Error PciMap)
  | [], pciMap => some (.ok pciMap)
  | pciPool :: rest, pciMap =>
    if pciPool.LowerPci > pciPool.UpperPci then
      some (.error (Error.Unavailable "lower pci should be lower than upper pci"))
    else
      match pciRangeLoop fuel pciPool.LowerPci pciPool.UpperPci pciMap with
      | none => none
      | some pciMap' => getEmptyPciMapFrom fuel rest pciMap'

/-- The function `getEmptyPciMap` (pci.go, lines 97-108). `.error` carries no
map, as the source returns `nil, err`. Every range loop may use `fuel` iterations. -/
def getEmptyPciMap (fuel : Nat) (pciPoolList : List PCIPool) : Option (Except Error PciMap) :=
  getEmptyPciMapFrom fuel pciPoolList []

/-! ## `neighborTraversal` -/

/-- The constant `SearchDepth`. -/
def SearchDepth : Nat := 2

/-- The identity, PCI and ARFCN that the loop body of `neighborTraversal` reads
off a neighbor record (lines 120-138); `none` for a record of neither type. -/
def neighborFields (n : NeighborCellItem) : Option (Cgi × int32 × int32) :=
  match n.GetRanTypeChoiceNr with
  | some x => some (Cgi.NRCgi x.NRCgi, x.NRPci, x.NRarfcn)
  | none =>
    match n.GetRanTypeChoiceEutra with
    | some x => some (Cgi.EUtraCgi x.EUtraCgi, x.EUtraPci, x.EUtraArfcn)
    | none => none

/-- The loop body of `neighborTraversal` (lines 119-162) on the state `(err, pciMap)`;
`recurse` stands for the call `p.neighborTraversal(ctx, root, ·, cDepth+1, ·)`. -/
def visitNeighbor (kp : MetricKeyParsers) (store : List Entry)
    (recurse : Entry → PciMap → Option Error × PciMap) (root : Entry)
    (st : Option Error × PciMap) (n : NeighborCellItem) : Option Error × PciMap :=
  match neighborFields n with
  | none => st
  | some (neighborCGI, pci, arfcn) =>
    if !isCGIEqual kp root.Key.CellGlobalID neighborCGI then
      match getEntryWithNeighborCGI kp store neighborCGI with
      | some neighborEntry =>
        recurse neighborEntry
          (if root.Value.Metric.ARFCN = arfcn then
            PciMap.set st.2 neighborEntry.Value.Metric.PCI true
          else st.2)
      | none =>
        (st.1, if root.Value.Metric.ARFCN = arfcn then PciMap.set st.2 pci true else st.2)
    else st

/-- The body of `neighborTraversal` with `levels = SearchDepth + 1 - cDepth` levels
of recursion left, so that `levels = 0` is the guard `cDepth > SearchDepth`. -/
def neighborTraversalLevels (kp : MetricKeyParsers) (store : List Entry) (root : Entry) :
    Nat → Entry → PciMap → Option Error × PciMap
  | 0, _, pciMap => (none, pciMap)
  | levels + 1, entry, pciMap =>
    entry.Value.Neighbors.foldl
      (visitNeighbor kp store (neighborTraversalLevels kp store root levels) root)
      (none, pciMap)

/-- The function `neighborTraversal` (pci.go, lines 110-165): the returned error
and the map after the traversal. -/
def neighborTraversal (kp : MetricKeyParsers) (store : List Entry) (root entry : Entry)
    (cDepth : Nat) (pciMap : PciMap) : Option Error × PciMap :=
  neighborTraversalLevels kp store root (SearchDepth + 1 - cDepth) entry pciMap

/-! ## `getAvailablePci` and the event handling -/

/-- The function `getAvailablePci` (pci.go, lines 69-95). `range` is the order in
which Go enumerates the map in `for k, v := range pciMap`. -/
def getAvailablePci (kp : MetricKeyParsers) (range : PciMap → List (int32 × Bool))
    (store : List Entry) (fuel : Nat) (entry : Entry) : Option (int32 × Bool × Option Error) :=
  match getEmptyPciMap fuel entry.Value.PCIPoolList with
  | none => none
  | some (.error err) => some (0, false, some err)
  | some (.ok pciMap) =>
    match neighborTraversal kp store entry entry 1 pciMap with
    | (some err, _) => some (0, false, some err)
    | (none, pciMap) =>
      if !PciMap.get pciMap entry.Value.Metric.PCI then some (0, false, none)
      else
        match (range pciMap).find? (fun kv => !kv.2) with
        | some kv => some (kv.1, true, none)
        | none =>
          some (0, false, some (Error.Unavailable
            "All PCIs in the PciPool are occupied by the other cells in the scope"))

/-- The body of the event loop of `resolvePciConflict` (pci.go, lines 46-66) as a
transition of the store. `updatePci` is the store's operation `UpdatePci`, which
yields the store after the call and the error it reports. -/
def resolvePciConflictEvent (kp : MetricKeyParsers) (range : PciMap → List (int32 × Bool))
    (updatePci : List Entry → Key → int32 → List Entry × Option Error)
    (fuel : Nat) (store : List Entry) (e : Event) : Option (List Entry) :=
  if e.Typ = EventType.Created then
    match getAvailablePci kp range store fuel e.Value with
    | none => none
    | some (pci, changed, err) =>
      if err.isSome then some store
      else if changed then some (updatePci store (NewKey e.Value.Key.CellGlobalID) pci).1
      else some store
  else some store

/-- The event loop of `resolvePciConflict` over the events the watch channel delivers. -/
def resolvePciConflict (kp : MetricKeyParsers) (range : PciMap → List (int32 × Bool))
    (updatePci : List Entry → Key → int32 → List Entry × Option Error)
    (fuel : Nat) : List Entry → List Event → Option (List Entry)
  | store, [] => some store
  | store, e :: rest =>
    match resolvePciConflictEvent kp range updatePci fuel store e with
    | none => none
    | some store' => resolvePciConflict kp range updatePci fuel store' rest

/-! ## Sample data -/

/-- A sample instance of the key parsers: the PLMN bytes are read little-endian,
the cell id is the first byte of the cell identity; an empty identity fails. -/
def sampleParsers : MetricKeyParsers where
  GetNRMetricKey c :=
    match c.NRcellIdentity with
    | [] => none
    | b :: _ => some (c.PLmnidentity, b, 1)
  GetEUTRAMetricKey c :=
    match c.EUtracellIdentity with
    | [] => none
    | b :: _ => some (c.PLmnidentity, b, 2)
  PlmnIDToUint32 bs := bs.foldr (fun b acc => b + 256 * acc) 0

/-- The NR identity of sample cell number `i`. -/
def sampleCgi (i : Nat) : Cgi := Cgi.NRCgi (some ⟨[1, 2, 3], [i]⟩)

/-- An NR neighbor record for sample cell `i` with snapshot `pci` and `arfcn`. -/
def sampleNeighbor (i : Nat) (pci arfcn : int32) : NeighborCellItem :=
  NeighborCellItem.nr ⟨some ⟨[1, 2, 3], [i]⟩, pci, arfcn⟩

/-- The entry of sample cell `i`. -/
def sampleEntry (i : Nat) (pci arfcn : int32) (ns : List NeighborCellItem)
    (pools : List PCIPool) : Entry :=
  ⟨⟨sampleCgi i⟩, ⟨⟨pci, arfcn⟩, ns, pools⟩⟩

/-! ## Closed forms used by the statements -/

/-- The map after `n` successive executions of `pciMap[i] = false; i++`. -/
def insertRange : Nat → int32 → PciMap → PciMap
  | 0, _, pciMap => pciMap
  | n + 1, i, pciMap => insertRange n i.inc (PciMap.set pciMap i false)

/-- The number of integers of a range, `UpperPci - LowerPci + 1` (zero if reversed). -/
def PCIPool.span (r : PCIPool) : Nat := (r.UpperPci.val + 1 - r.LowerPci.val).toNat

/-- The map obtained by inserting the integers of every range in turn. -/
def fillPools (pools : List PCIPool) (pciMap : PciMap) : PciMap :=
  pools.foldl (fun m r => insertRange r.span r.LowerPci m) pciMap

/-- Fuel that suffices for every range loop of a pool list. -/
def poolFuel (pools : List PCIPool) : Nat := (pools.map PCIPool.span).sum

/-- The integer `k` lies in one of the ranges of the pool list. -/
def InPools (pools : List PCIPool) (k : int32) : Prop :=
  ∃ r ∈ pools, r.LowerPci ≤ k ∧ k ≤ r.UpperPci

instance (pools : List PCIPool) (k : int32) : Decidable (InPools pools k) :=
  inferInstanceAs (Decidable (∃ r ∈ pools, r.LowerPci ≤ k ∧ k ≤ r.UpperPci))

/-- Every range of the list has `LowerPci <= UpperPci`. -/
def ValidPools (pools : List PCIPool) : Prop := ∀ r ∈ pools, r.LowerPci ≤ r.UpperPci

instance (pools : List PCIPool) : Decidable (ValidPools pools) :=
  inferInstanceAs (Decidable (∀ r ∈ pools, r.LowerPci ≤ r.UpperPci))

/-- No range of the list ends at the largest `int32`. -/
def BelowMax (pools : List PCIPool) : Prop := ∀ r ∈ pools, r.UpperPci < int32.max

instance (pools : List PCIPool) : Decidable (BelowMax pools) :=
  inferInstanceAs (Decidable (∀ r ∈ pools, r.UpperPci < int32.max))

/-- The map after marking every PCI of the list occupied, in order. -/
def markAll (ps : List int32) (pciMap : PciMap) : PciMap :=
  ps.foldl (fun m p => PciMap.set m p true) pciMap

/-- The ARFCN that decides whether a neighbor record found in the store counts:
the code compares the ARFCN of the record's snapshot (`liveArfcn = false`); the
specification's wording takes the ARFCN of the live entry (`liveArfcn = true`). -/
def decidingArfcn (liveArfcn : Bool) (snapshotArfcn : int32) (live : Entry) : int32 :=
  if liveArfcn then live.Value.Metric.ARFCN else snapshotArfcn

/-- The PCIs that one neighbor record brings into scope. A record of neither
type, or one whose identity equals the root's, brings nothing. A record found in
the store brings the live entry's PCI when the deciding ARFCN is the root's,
followed by `below` of the live entry; a record not found brings its snapshot PCI
when its snapshot ARFCN is the root's. -/
def recordPcis (liveArfcn : Bool) (kp : MetricKeyParsers) (store : List Entry) (root : Entry)
    (below : Entry → List int32) (n : NeighborCellItem) : List int32 :=
  match neighborFields n with
  | none => []
  | some (neighborCGI, pci, arfcn) =>
    if isCGIEqual kp root.Key.CellGlobalID neighborCGI then []
    else
      match getEntryWithNeighborCGI kp store neighborCGI with
      | some live =>
        (if root.Value.Metric.ARFCN = decidingArfcn liveArfcn arfcn live then
          [live.Value.Metric.PCI] else []) ++ below live
      | none => if root.Value.Metric.ARFCN = arfcn then [pci] else []

/-- The PCIs in scope of `entry`, following neighbor records `levels` hops deep. -/
def scopeLevels (liveArfcn : Bool) (kp : MetricKeyParsers) (store : List Entry) (root : Entry) :
    Nat → Entry → List int32
  | 0, _ => []
  | levels + 1, entry =>
    (entry.Value.Neighbors.map
      (recordPcis liveArfcn kp store root (scopeLevels liveArfcn kp store root levels))).flatten

/-- The PCIs that the traversal from `root` marks occupied: those of the cells
within `SearchDepth` hops, a cell counting when its record's snapshot ARFCN is
the root's. -/
def occupiedPcis (kp : MetricKeyParsers) (store : List Entry) (root : Entry) : List int32 :=
  scopeLevels false kp store root SearchDepth root

/-- The PCIs in scope as the specification words it: those of the cells within
`SearchDepth` hops, a cell found in the store counting when its live ARFCN is the
root's. -/
def claimedPcis (kp : MetricKeyParsers) (store : List Entry) (root : Entry) : List int32 :=
  scopeLevels true kp store root SearchDepth root

/-- The order in which `range` enumerates a map visits every item once. -/
def FairRange (range : PciMap → List (int32 × Bool)) : Prop :=
  ∀ m : PciMap, (range m).Perm m

/-- The message of the error that `getAvailablePci` raises when no PCI is free. -/
def poolExhausted : Error :=
  Error.Unavailable "All PCIs in the PciPool are occupied by the other cells in the scope"

/-- Enumeration of a map in the order of insertion. -/
def insertionOrder : PciMap → List (int32 × Bool) := fun m => m

/-! ## Sample scenarios -/

/-- The pool `[0, 10]`. -/
def pool0to10 : List PCIPool := [⟨0, 10⟩]

/-- Cell A (PCI 5, ARFCN 100) with the single neighbor B (PCI 6, ARFCN 100). -/
def quietA : Entry := sampleEntry 1 5 100 [sampleNeighbor 2 6 100] pool0to10

/-- Cell B of the quiet scenario, listing A as its neighbor. -/
def quietB : Entry := sampleEntry 2 6 100 [sampleNeighbor 1 5 100] pool0to10

/-- Cell A (PCI 5, ARFCN 100) whose neighbor B also uses PCI 5 on ARFCN 100; pool `[0, 6]`. -/
def clashA : Entry := sampleEntry 1 5 100 [sampleNeighbor 2 5 100] [⟨0, 6⟩]

/-- Cell A (PCI 5) with the pool `[5, 5]` and a neighbor using PCI 5 on A's ARFCN. -/
def fullA : Entry := sampleEntry 1 5 100 [sampleNeighbor 2 5 100] [⟨5, 5⟩]

/-- Cell A with PCI 7 outside its pool `[5, 5]`, whose neighbor uses PCI 5 on A's ARFCN. -/
def outsideA : Entry := sampleEntry 1 7 100 [sampleNeighbor 2 5 100] [⟨5, 5⟩]

/-- Cell A (PCI 5, ARFCN 100) whose record of B carries the snapshot PCI 6 on ARFCN 100. -/
def staleA : Entry := sampleEntry 1 5 100 [sampleNeighbor 2 6 100] pool0to10

/-- The live entry of B for `staleA`: it has moved to ARFCN 200 and uses PCI 5. -/
def movedB : Entry := sampleEntry 2 5 200 [] pool0to10

/-- The live entry that the traversal from `root` follows for a neighbor record:
none for a record of neither type, for the root's own record and for a record
that the store does not resolve. -/
def resolveRecord (kp : MetricKeyParsers) (store : List Entry) (root : Entry)
    (n : NeighborCellItem) : Option Entry :=
  match neighborFields n with
  | none => none
  | some (neighborCGI, _, _) =>
    if isCGIEqual kp root.Key.CellGlobalID neighborCGI then none
    else getEntryWithNeighborCGI kp store neighborCGI

/-- An entry with its neighbor list removed. -/
def Entry.withoutNeighbors (e : Entry) : Entry :=
  ⟨e.Key, ⟨e.Value.Metric, [], e.Value.PCIPoolList⟩⟩

/-- Modelled from the spec: the store operation `UpdatePci`, "idempotent partial
update of one field": the PCI of every entry stored under the key is replaced. -/
def UpdatePci (store : List Entry) (key : Key) (pci : int32) : List Entry × Option Error :=
  (store.map (fun e =>
    if e.Key = key then ⟨e.Key, ⟨⟨pci, e.Value.Metric.ARFCN⟩, e.Value.Neighbors, e.Value.PCIPoolList⟩⟩
    else e), none)

/-- Two store entries under the identity of cell 2, with PCI 1 and PCI 2. -/
def twinFirst : Entry := sampleEntry 2 1 100 [] pool0to10

/-- The second entry under the identity of cell 2. -/
def twinSecond : Entry := sampleEntry 2 2 100 [] pool0to10

/-- Cell A (PCI 5, ARFCN 100) whose record of B carries the snapshot ARFCN 200. -/
def driftA : Entry := sampleEntry 1 5 100 [sampleNeighbor 2 6 200] pool0to10

/-- The live entry of B for `driftA`: on A's ARFCN 100 and using A's PCI 5. -/
def driftB : Entry := sampleEntry 2 5 100 [] pool0to10

/-- A chain of neighbors A - B - C - D - E - F on one ARFCN; cell `i` uses PCI `10 + i`. -/
def chainStore : List Entry :=
  [sampleEntry 1 11 100 [sampleNeighbor 2 12 100] pool0to10,
   sampleEntry 2 12 100 [sampleNeighbor 3 13 100] pool0to10,
   sampleEntry 3 13 100 [sampleNeighbor 4 14 100] pool0to10,
   sampleEntry 4 14 100 [sampleNeighbor 5 15 100] pool0to10,
   sampleEntry 5 15 100 [sampleNeighbor 6 16 100] pool0to10,
   sampleEntry 6 16 100 [] pool0to10]

/-- The chain cut after C: C has lost its neighbor list and D, E, F are gone. -/
def cutStore : List Entry :=
  [sampleEntry 1 11 100 [sampleNeighbor 2 12 100] pool0to10,
   sampleEntry 2 12 100 [sampleNeighbor 3 13 100] pool0to10,
   sampleEntry 3 13 100 [] pool0to10]

/-- The head A of the chain. -/
def chainA : Entry := sampleEntry 1 11 100 [sampleNeighbor 2 12 100] pool0to10

/-- The neighbor record `n`, seen from `root`, brings the PCI `p` into scope: it is
of a known type, its identity is not the root's, its snapshot ARFCN is the root's,
and `p` is the PCI of the live entry it resolves to, or its snapshot PCI when the
store does not resolve it. -/
def RecordBrings (kp : MetricKeyParsers) (store : List Entry) (root : Entry)
    (n : NeighborCellItem) (p : int32) : Prop :=
  ∃ neighborCGI pci arfcn, neighborFields n = some (neighborCGI, pci, arfcn) ∧
    isCGIEqual kp root.Key.CellGlobalID neighborCGI = false ∧
    root.Value.Metric.ARFCN = arfcn ∧
    p = match getEntryWithNeighborCGI kp store neighborCGI with
      | some live => live.Value.Metric.PCI
      | none => pci

/-! ## The canonical form of an identity -/

/-- The two technology variants of a cell identity. -/
inductive Technology where
  | NR
  | EUTRA
  deriving DecidableEq

/-- The canonical form of an identity in the words of the specification: the
technology variant it carries together with the decoded network id (the PLMN as an
unsigned integer), the decoded cell id and the technology tag that the variant's
key parser yields; `none` when the identity carries no payload or the parser fails. -/
def canonicalIdentity (kp : MetricKeyParsers) : Cgi → Option (Technology × Nat × Nat × Nat)
  | .NRCgi (some c) =>
    (kp.GetNRMetricKey c).map (fun k => (Technology.NR, kp.PlmnIDToUint32 k.1, k.2.1, k.2.2))
  | .EUtraCgi (some c) =>
    (kp.GetEUTRAMetricKey c).map
      (fun k => (Technology.EUTRA, kp.PlmnIDToUint32 k.1, k.2.1, k.2.2))
  | _ => none

/-- An EUTRA identity with the same PLMN bytes and cell identity as `sampleCgi i`. -/
def sampleEutraCgi (i : Nat) : Cgi := Cgi.EUtraCgi (some ⟨[1, 2, 3], [i]⟩)

/-- A variant of `sampleParsers` that gives both technologies the same tag. -/
def untaggedParsers : MetricKeyParsers where
  GetNRMetricKey c :=
    match c.NRcellIdentity with
    | [] => none
    | b :: _ => some (c.PLmnidentity, b, 0)
  GetEUTRAMetricKey c :=
    match c.EUtracellIdentity with
    | [] => none
    | b :: _ => some (c.PLmnidentity, b, 0)
  PlmnIDToUint32 bs := bs.foldr (fun b acc => b + 256 * acc) 0

/-! ## Further sample scenarios -/

/-- Cell A (PCI 5, ARFCN 100) whose neighbor B is recorded with A's PCI 5 on ARFCN 200. -/
def otherBandA : Entry := sampleEntry 1 5 100 [sampleNeighbor 2 5 200] pool0to10

/-- The live entry of B for `otherBandA`: PCI 5 on ARFCN 200, with a neighbor C that
is not in the store and is recorded with PCI 5 on ARFCN 300. -/
def otherBandB : Entry := sampleEntry 2 5 200 [sampleNeighbor 3 5 300] pool0to10

/-- Cell A (PCI 5, ARFCN 100, pool `[0, 10]`) whose neighbor uses PCI 50 on A's ARFCN. -/
def farPciA : Entry := sampleEntry 1 5 100 [sampleNeighbor 2 50 100] pool0to10

/-- Cell A (PCI 5) whose record of B carries the stale snapshot PCI 5. -/
def snapshotA : Entry := sampleEntry 1 5 100 [sampleNeighbor 2 5 100] pool0to10

/-- The live entry of B for `snapshotA`: it has moved on to PCI 7. -/
def repairedB : Entry := sampleEntry 2 7 100 [] pool0to10

/-! ## The R-NIB client (`pkg/rnib/rnib.go`) -/

/-- An entry of the service models of an E2 node; only the OID is read. -/
structure ServiceModelInfo where
  OID : String
  deriving DecidableEq

/-- The aspect `topoapi.E2Node`. -/
structure E2Node where
  ServiceModels : List ServiceModelInfo
  deriving DecidableEq

/-- A topology object as `GetE2NodeAspects` uses it: the outcome of `GetAspect`. -/
structure TopoObject where
  E2NodeAspect : Except Error E2Node

/-- The relation inside an object of the listing, `object.Obj.(*topoapi.Object_Relation)`;
the identifiers `topoapi.ID` are strings. -/
structure Relation where
  TgtEntityID : String
  deriving DecidableEq

/-- The topo SDK client as far as the R-NIB client calls it: `Get` of an object and
`List` with the control relation filter, each with its outcome. -/
structure Client where
  Get : String → Except Error TopoObject
  ListControlRelations : Except Error (List Relation)

/-- The function `GetE2NodeAspects` (rnib.go, lines 164-173). -/
def GetE2NodeAspects (c : Client) (nodeID : String) : Except Error E2Node :=
  match c.Get nodeID with
  | .error err => .error err
  | .ok object => object.E2NodeAspect

/-- The function `HasRCRANFunction` (rnib.go, lines 50-63). -/
def HasRCRANFunction (c : Client) (nodeID : String) (oid : String) : Bool :=
  match GetE2NodeAspects c nodeID with
  | .error _ => false
  | .ok e2Node => e2Node.ServiceModels.any (fun sm => decide (sm.OID = oid))

/-- The function `E2NodeIDs` (rnib.go, lines 145-161): the slice is made with
`len(objects)` elements, each the zero value of `topoapi.ID`, and the identifiers
are appended to it. -/
def E2NodeIDs (c : Client) (oid : String) : Except Error (List String) :=
  match c.ListControlRelations with
  | .error err => .error err
  | .ok objects =>
    .ok (objects.foldl
      (fun e2NodeIDs object =>
        if HasRCRANFunction c object.TgtEntityID oid then e2NodeIDs ++ [object.TgtEntityID]
        else e2NodeIDs)
      (List.replicate objects.length ""))

/-- The identifiers that the listing should yield: the targets of the relations
whose node has the RAN function, in listing order. -/
def nodesWithRCRANFunction (c : Client) (oid : String) (objects : List Relation) : List String :=
  (objects.filter (fun object => HasRCRANFunction c object.TgtEntityID oid)).map
    (fun object => object.TgtEntityID)

/-- A topology with the single E2 node `e2:1`, which offers the service model `oid`. -/
def sampleClient (oid : String) : Client where
  Get nodeID :=
    if nodeID = "e2:1" then .ok ⟨.ok ⟨[⟨oid⟩]⟩⟩ else .error (Error.Unavailable "not found")
  ListControlRelations := .ok [⟨"e2:1"⟩]

/-- An entry with its current PCI replaced by `pci`. -/
def Entry.withPci (e : Entry) (pci : int32) : Entry :=
  ⟨e.Key, ⟨⟨pci, e.Value.Metric.ARFCN⟩, e.Value.Neighbors, e.Value.PCIPoolList⟩⟩

/-- A pool list with a reversed range `[5, 3]` after a range ending at the largest `int32`. -/
def brokenPools : List PCIPool := [⟨2147483640, 2147483647⟩, ⟨5, 3⟩]

/-- The live entry of a neighbor B on ARFCN 200 that uses PCI 5 and has no neighbors. -/
def loneBandB : Entry := sampleEntry 2 5 200 [] pool0to10

/-- Cell A (PCI 5, ARFCN 100) whose only neighbor B is recorded with PCI 5 on ARFCN
200, and whose pool is the single range `[2147483647, 2147483647]`. -/
def maxPoolA : Entry := sampleEntry 1 5 100 [sampleNeighbor 2 5 200] [⟨int32.max, int32.max⟩]

/-! ## Facts about the occupancy map -/

theorem PciMap.get_set (m : PciMap) (k : int32) (v : Bool) (k' : int32) :
    PciMap.get (PciMap.set m k v) k' = if k = k' then v else PciMap.get m k' := by
  induction m with
  | nil => simp [PciMap.set, PciMap.get]
  | cons kv rest ih =>
    obtain ⟨a, b⟩ := kv
    by_cases h : a = k
    · subst h
      by_cases h' : a = k' <;> simp [PciMap.set, PciMap.get, h']
    · by_cases h' : a = k'
      · subst h'
        have hne : ¬ k = a := fun e => h e.symm
        simp [PciMap.set, PciMap.get, h, hne]
      · simp [PciMap.set, PciMap.get, h, h', ih]

theorem PciMap.mem_keys_set (m : PciMap) (k : int32) (v : Bool) (k' : int32) :
    k' ∈ PciMap.keys (PciMap.set m k v) ↔ k' = k ∨ k' ∈ PciMap.keys m := by
  induction m with
  | nil => simp [PciMap.set, PciMap.keys]
  | cons kv rest ih =>
    obtain ⟨a, b⟩ := kv
    by_cases h : a = k
    · subst h
      simp [PciMap.set, PciMap.keys]
    · simp only [PciMap.keys] at ih
      simp [PciMap.set, PciMap.keys, h, ih]
      tauto

theorem PciMap.nodup_keys_set (m : PciMap) (k : int32) (v : Bool)
    (h : (PciMap.keys m).Nodup) : (PciMap.keys (PciMap.set m k v)).Nodup := by
  induction m with
  | nil => simp [PciMap.set, PciMap.keys]
  | cons kv rest ih =>
    obtain ⟨a, b⟩ := kv
    have h1 : a ∉ PciMap.keys rest ∧ (PciMap.keys rest).Nodup := by
      simpa [PciMap.keys] using h
    by_cases hk : a = k
    · subst hk
      simpa [PciMap.set, PciMap.keys] using h
    · have h2 : a ∉ PciMap.keys (PciMap.set rest k v) := by
        rw [PciMap.mem_keys_set]
        tauto
      have h3 := ih h1.2
      simp only [PciMap.keys] at h2 h3
      simp [PciMap.set, PciMap.keys, hk, h2, h3]

theorem PciMap.get_of_mem (m : PciMap) (k : int32) (v : Bool)
    (h : (PciMap.keys m).Nodup) (hmem : (k, v) ∈ m) : PciMap.get m k = v := by
  induction m with
  | nil => simp at hmem
  | cons kv rest ih =>
    obtain ⟨a, b⟩ := kv
    have h1 : a ∉ PciMap.keys rest ∧ (PciMap.keys rest).Nodup := by
      simpa [PciMap.keys] using h
    rcases List.mem_cons.mp hmem with heq | hrest
    · have ha : k = a := congrArg Prod.fst heq
      have hb : v = b := congrArg Prod.snd heq
      subst ha; subst hb
      simp [PciMap.get]
    · have hk : k ∈ PciMap.keys rest := List.mem_map.mpr ⟨(k, v), hrest, rfl⟩
      have hne : ¬ a = k := fun e => h1.1 (e ▸ hk)
      simp [PciMap.get, hne, ih h1.2 hrest]

theorem PciMap.get_of_not_mem_keys (m : PciMap) (k : int32)
    (h : k ∉ PciMap.keys m) : PciMap.get m k = false := by
  induction m with
  | nil => rfl
  | cons kv rest ih =>
    obtain ⟨a, b⟩ := kv
    have h1 : ¬ k = a ∧ k ∉ PciMap.keys rest := by
      simpa [PciMap.keys] using h
    have hne : ¬ a = k := fun e => h1.1 e.symm
    simp [PciMap.get, hne, ih h1.2]

/-! ## Facts about `int32` -/

theorem int32.le_def (a b : int32) : a ≤ b ↔ a.val ≤ b.val := Iff.rfl

theorem int32.lt_def (a b : int32) : a < b ↔ a.val < b.val := Iff.rfl

theorem int32.inc_val (i : int32) (h : i.val < 2147483647) : i.inc.val = i.val + 1 := by
  have := i.property
  show (i.val + 1 + 2147483648) % 4294967296 - 2147483648 = i.val + 1
  omega

theorem int32.val_le_max (i : int32) : i.val ≤ 2147483647 := i.property.2

/-! ## The range loop -/

theorem pciRangeLoop_none_of_max (upper : int32) (h : upper.val = 2147483647) :
    ∀ (fuel : Nat) (i : int32) (m : PciMap), pciRangeLoop fuel i upper m = none := by
  intro fuel
  induction fuel with
  | zero =>
    intro i m
    have hi : i ≤ upper := by
      rw [int32.le_def, h]; exact i.val_le_max
    simp [pciRangeLoop, hi]
  | succ f ih =>
    intro i m
    have hi : i ≤ upper := by
      rw [int32.le_def, h]; exact i.val_le_max
    simp [pciRangeLoop, hi, ih]

theorem pciRangeLoop_enough (upper : int32) (hu : upper.val < 2147483647) :
    ∀ (fuel n : Nat) (i : int32) (m : PciMap), i.val + n = upper.val + 1 → n ≤ fuel →
      pciRangeLoop fuel i upper m = some (insertRange n i m) := by
  intro fuel
  induction fuel with
  | zero =>
    intro n i m hn hf
    have hn0 : n = 0 := by omega
    subst hn0
    have hi : ¬ i ≤ upper := by
      rw [int32.le_def]; omega
    simp [pciRangeLoop, hi, insertRange]
  | succ f ih =>
    intro n i m hn hf
    cases n with
    | zero =>
      have hi : ¬ i ≤ upper := by
        rw [int32.le_def]; omega
      simp [pciRangeLoop, hi, insertRange]
    | succ n =>
      have hi : i ≤ upper := by
        rw [int32.le_def]; omega
      have hinc : i.inc.val = i.val + 1 := int32.inc_val i (by omega)
      have := ih n i.inc (PciMap.set m i false) (by rw [hinc]; omega) (by omega)
      simp [pciRangeLoop, hi, insertRange, this]

theorem pciRangeLoop_some (upper : int32) :
    ∀ (fuel : Nat) (i : int32) (m m' : PciMap), i.val ≤ upper.val + 1 →
      pciRangeLoop fuel i upper m = some m' →
      upper.val < 2147483647 ∧ m' = insertRange (upper.val + 1 - i.val).toNat i m := by
  intro fuel i m m' hi h
  have hu : upper.val < 2147483647 := by
    rcases lt_or_ge upper.val 2147483647 with hlt | hge
    · exact hlt
    · have hmax : upper.val = 2147483647 := le_antisymm upper.val_le_max hge
      rw [pciRangeLoop_none_of_max upper hmax] at h
      exact absurd h (by simp)
  refine ⟨hu, ?_⟩
  induction fuel generalizing i m with
  | zero =>
    by_cases hle : i ≤ upper
    · simp [pciRangeLoop, hle] at h
    · have h0 : (upper.val + 1 - i.val).toNat = 0 := by
        rw [int32.le_def] at hle; omega
      simp [pciRangeLoop, hle] at h
      rw [h0, ← h]; rfl
  | succ f ih =>
    by_cases hle : i ≤ upper
    · have hle' := (int32.le_def i upper).mp hle
      have hinc : i.inc.val = i.val + 1 := int32.inc_val i (by omega)
      simp only [pciRangeLoop, hle, if_true] at h
      have := ih i.inc (PciMap.set m i false) (by rw [hinc]; omega) h
      have hn : (upper.val + 1 - i.val).toNat = (upper.val + 1 - i.inc.val).toNat + 1 := by
        rw [hinc]; omega
      rw [hn, this]; rfl
    · have h0 : (upper.val + 1 - i.val).toNat = 0 := by
        rw [int32.le_def] at hle; omega
      simp [pciRangeLoop, hle] at h
      rw [h0, ← h]; rfl

/-! ## The closed form `insertRange` -/

theorem get_insertRange (n : Nat) :
    ∀ (i : int32) (m : PciMap) (k : int32), i.val + n ≤ 2147483647 →
      PciMap.get (insertRange n i m) k =
        if i.val ≤ k.val ∧ k.val < i.val + n then false else PciMap.get m k := by
  induction n with
  | zero =>
    intro i m k _
    have : ¬ (i.val ≤ k.val ∧ k.val < i.val + ((0 : Nat) : Int)) := by omega
    rw [if_neg this]; rfl
  | succ n ih =>
    intro i m k h
    have hinc : i.inc.val = i.val + 1 := int32.inc_val i (by omega)
    rw [insertRange, ih i.inc _ k (by rw [hinc]; omega), hinc, PciMap.get_set]
    by_cases hik : i = k
    · subst hik
      have h1 : i.val ≤ i.val ∧ i.val < i.val + ((n + 1 : Nat) : Int) := by omega
      rw [if_pos h1, if_pos rfl]
      split <;> rfl
    · have hne : i.val ≠ k.val := fun e => hik (Subtype.ext e)
      rw [if_neg hik]
      by_cases hr : i.val + 1 ≤ k.val ∧ k.val < i.val + 1 + (n : Int)
      · have h1 : i.val ≤ k.val ∧ k.val < i.val + ((n + 1 : Nat) : Int) := by omega
        rw [if_pos hr, if_pos h1]
      · have h1 : ¬ (i.val ≤ k.val ∧ k.val < i.val + ((n + 1 : Nat) : Int)) := by omega
        rw [if_neg hr, if_neg h1]

theorem mem_keys_insertRange (n : Nat) :
    ∀ (i : int32) (m : PciMap) (k : int32), i.val + n ≤ 2147483647 →
      (k ∈ PciMap.keys (insertRange n i m) ↔
        k ∈ PciMap.keys m ∨ (i.val ≤ k.val ∧ k.val < i.val + n)) := by
  induction n with
  | zero =>
    intro i m k _
    have : ¬ (i.val ≤ k.val ∧ k.val < i.val + ((0 : Nat) : Int)) := by omega
    constructor
    · intro h1; exact Or.inl h1
    · rintro (h1 | h1)
      · exact h1
      · exact absurd h1 this
  | succ n ih =>
    intro i m k h
    have hinc : i.inc.val = i.val + 1 := int32.inc_val i (by omega)
    rw [insertRange, ih i.inc _ k (by rw [hinc]; omega), hinc, PciMap.mem_keys_set]
    have hik : k = i ↔ k.val = i.val := Subtype.ext_iff
    rw [hik]
    constructor
    · rintro ((h1 | h1) | h1)
      · right; omega
      · left; exact h1
      · right; omega
    · rintro (h1 | h1)
      · left; right; exact h1
      · by_cases e : k.val = i.val
        · left; left; exact e
        · right; omega

theorem nodup_keys_insertRange (n : Nat) :
    ∀ (i : int32) (m : PciMap), (PciMap.keys m).Nodup →
      (PciMap.keys (insertRange n i m)).Nodup := by
  induction n with
  | zero => intro i m h; exact h
  | succ n ih =>
    intro i m h
    exact ih i.inc _ (PciMap.nodup_keys_set m i false h)

/-! ## `getEmptyPciMap` -/

theorem int32.max_val : int32.max.val = 2147483647 := rfl

theorem PCIPool.span_spec (r : PCIPool) (h : r.LowerPci ≤ r.UpperPci) :
    r.LowerPci.val + (r.span : Int) = r.UpperPci.val + 1 := by
  have := (int32.le_def _ _).mp h
  unfold PCIPool.span
  omega

theorem span_le_poolFuel (pools : List PCIPool) (r : PCIPool) (h : r ∈ pools) :
    r.span ≤ poolFuel pools := by
  induction pools with
  | nil => simp at h
  | cons a rest ih =>
    rcases List.mem_cons.mp h with e | hr
    · subst e
      simp [poolFuel]
    · have := ih hr
      simp only [poolFuel, List.map_cons, List.sum_cons] at this ⊢
      omega

theorem getEmptyPciMapFrom_enough (fuel : Nat) (pools : List PCIPool) :
    ∀ (m : PciMap), ValidPools pools → BelowMax pools → (∀ r ∈ pools, r.span ≤ fuel) →
      getEmptyPciMapFrom fuel pools m = some (.ok (fillPools pools m)) := by
  induction pools with
  | nil => intro m _ _ _; rfl
  | cons r rest ih =>
    intro m hv hb hf
    have hr : r.LowerPci ≤ r.UpperPci := hv r (List.mem_cons_self _ _)
    have hnot : ¬ r.LowerPci > r.UpperPci := by
      have := (int32.le_def _ _).mp hr
      intro hgt
      have := (int32.lt_def _ _).mp hgt
      omega
    have hu : r.UpperPci.val < 2147483647 := (int32.lt_def _ _).mp (hb r (List.mem_cons_self _ _))
    have hloop := pciRangeLoop_enough r.UpperPci hu fuel r.span r.LowerPci m
      (PCIPool.span_spec r hr) (hf r (List.mem_cons_self _ _))
    have hrest := ih (insertRange r.span r.LowerPci m)
      (fun x hx => hv x (List.mem_cons_of_mem _ hx))
      (fun x hx => hb x (List.mem_cons_of_mem _ hx))
      (fun x hx => hf x (List.mem_cons_of_mem _ hx))
    simp only [getEmptyPciMapFrom, if_neg hnot, hloop, hrest]
    rfl

theorem getEmptyPciMapFrom_ok (fuel : Nat) (pools : List PCIPool) :
    ∀ (m m' : PciMap), getEmptyPciMapFrom fuel pools m = some (.ok m') →
      ValidPools pools ∧ BelowMax pools ∧ m' = fillPools pools m := by
  induction pools with
  | nil =>
    intro m m' h
    simp only [getEmptyPciMapFrom, Option.some.injEq, Except.ok.injEq] at h
    refine ⟨fun r hr => absurd hr (List.not_mem_nil r), fun r hr => absurd hr (List.not_mem_nil r), ?_⟩
    rw [← h]; rfl
  | cons r rest ih =>
    intro m m' h
    by_cases hgt : r.LowerPci > r.UpperPci
    · simp [getEmptyPciMapFrom, hgt] at h
    · have hr : r.LowerPci ≤ r.UpperPci := by
        rw [int32.le_def]
        have : ¬ r.UpperPci.val < r.LowerPci.val := hgt
        omega
      simp only [getEmptyPciMapFrom, if_neg hgt] at h
      cases hloop : pciRangeLoop fuel r.LowerPci r.UpperPci m with
      | none => simp [hloop] at h
      | some m1 =>
        simp only [hloop] at h
        have hs := pciRangeLoop_some r.UpperPci fuel r.LowerPci m m1
          (by have := (int32.le_def _ _).mp hr; omega) hloop
        obtain ⟨hv, hb, hm⟩ := ih m1 m' h
        refine ⟨?_, ?_, ?_⟩
        · intro x hx
          rcases List.mem_cons.mp hx with e | hx
          · subst e; exact hr
          · exact hv x hx
        · intro x hx
          rcases List.mem_cons.mp hx with e | hx
          · subst e; exact (int32.lt_def _ _).mpr hs.1
          · exact hb x hx
        · rw [hm, hs.2]; rfl

theorem getEmptyPciMapFrom_error (fuel : Nat) (pools : List PCIPool) :
    ∀ (m : PciMap) (e : Error), getEmptyPciMapFrom fuel pools m = some (.error e) →
      (∃ r ∈ pools, r.LowerPci > r.UpperPci) ∧
        e = Error.Unavailable "lower pci should be lower than upper pci" := by
  induction pools with
  | nil => intro m e h; simp [getEmptyPciMapFrom] at h
  | cons r rest ih =>
    intro m e h
    by_cases hgt : r.LowerPci > r.UpperPci
    · simp only [getEmptyPciMapFrom, if_pos hgt, Option.some.injEq, Except.error.injEq] at h
      exact ⟨⟨r, List.mem_cons_self _ _, hgt⟩, h.symm⟩
    · simp only [getEmptyPciMapFrom, if_neg hgt] at h
      cases hloop : pciRangeLoop fuel r.LowerPci r.UpperPci m with
      | none => simp [hloop] at h
      | some m1 =>
        simp only [hloop] at h
        obtain ⟨⟨x, hx, hxgt⟩, he⟩ := ih m1 e h
        exact ⟨⟨x, List.mem_cons_of_mem _ hx, hxgt⟩, he⟩

/-! ## The closed form `fillPools` -/

theorem mem_keys_fillPools (pools : List PCIPool) :
    ∀ (m : PciMap) (k : int32), ValidPools pools → BelowMax pools →
      (k ∈ PciMap.keys (fillPools pools m) ↔ k ∈ PciMap.keys m ∨ InPools pools k) := by
  induction pools with
  | nil =>
    intro m k _ _
    simp [fillPools, InPools]
  | cons r rest ih =>
    intro m k hv hb
    have hr : r.LowerPci ≤ r.UpperPci := hv r (List.mem_cons_self _ _)
    have hu : r.UpperPci.val < 2147483647 := (int32.lt_def _ _).mp (hb r (List.mem_cons_self _ _))
    have hspan := PCIPool.span_spec r hr
    have h1 := ih (insertRange r.span r.LowerPci m) k
      (fun x hx => hv x (List.mem_cons_of_mem _ hx))
      (fun x hx => hb x (List.mem_cons_of_mem _ hx))
    have h2 := mem_keys_insertRange r.span r.LowerPci m k (by omega)
    have h3 : fillPools (r :: rest) m = fillPools rest (insertRange r.span r.LowerPci m) := rfl
    rw [h3, h1, h2]
    constructor
    · rintro ((h | h) | ⟨x, hx, hk⟩)
      · exact Or.inl h
      · refine Or.inr ⟨r, List.mem_cons_self _ _, ?_, ?_⟩
        · exact (int32.le_def _ _).mpr h.1
        · rw [int32.le_def]; omega
      · exact Or.inr ⟨x, List.mem_cons_of_mem _ hx, hk⟩
    · rintro (h | ⟨x, hx, hk⟩)
      · exact Or.inl (Or.inl h)
      · rcases List.mem_cons.mp hx with e | hx
        · subst e
          have a := (int32.le_def _ _).mp hk.1
          have b := (int32.le_def _ _).mp hk.2
          exact Or.inl (Or.inr ⟨a, by omega⟩)
        · exact Or.inr ⟨x, hx, hk⟩

theorem get_fillPools (pools : List PCIPool) :
    ∀ (m : PciMap) (k : int32), ValidPools pools → BelowMax pools →
      PciMap.get m k = false → PciMap.get (fillPools pools m) k = false := by
  induction pools with
  | nil => intro m k _ _ h; exact h
  | cons r rest ih =>
    intro m k hv hb h
    have hr : r.LowerPci ≤ r.UpperPci := hv r (List.mem_cons_self _ _)
    have hu : r.UpperPci.val < 2147483647 := (int32.lt_def _ _).mp (hb r (List.mem_cons_self _ _))
    have hspan := PCIPool.span_spec r hr
    have h3 : fillPools (r :: rest) m = fillPools rest (insertRange r.span r.LowerPci m) := rfl
    rw [h3]
    apply ih _ k (fun x hx => hv x (List.mem_cons_of_mem _ hx))
      (fun x hx => hb x (List.mem_cons_of_mem _ hx))
    rw [get_insertRange r.span r.LowerPci m k (by omega), h]
    split <;> rfl

theorem nodup_keys_fillPools (pools : List PCIPool) :
    ∀ (m : PciMap), (PciMap.keys m).Nodup → (PciMap.keys (fillPools pools m)).Nodup := by
  induction pools with
  | nil => intro m h; exact h
  | cons r rest ih =>
    intro m h
    exact ih _ (nodup_keys_insertRange r.span r.LowerPci m h)

/-! ## Marking -/

theorem markAll_nil (m : PciMap) : markAll [] m = m := rfl

theorem markAll_cons (p : int32) (ps : List int32) (m : PciMap) :
    markAll (p :: ps) m = markAll ps (PciMap.set m p true) := rfl

theorem markAll_append (ps qs : List int32) (m : PciMap) :
    markAll (ps ++ qs) m = markAll qs (markAll ps m) := by
  simp [markAll, List.foldl_append]

theorem get_markAll (ps : List int32) :
    ∀ (m : PciMap) (k : int32), PciMap.get (markAll ps m) k = (PciMap.get m k || decide (k ∈ ps)) := by
  induction ps with
  | nil => intro m k; simp [markAll]
  | cons p ps ih =>
    intro m k
    rw [markAll_cons, ih, PciMap.get_set]
    by_cases h : p = k
    · subst h; simp
    · have h' : ¬ k = p := fun e => h e.symm
      simp [h, h']

theorem mem_keys_markAll (ps : List int32) :
    ∀ (m : PciMap) (k : int32), k ∈ PciMap.keys (markAll ps m) ↔ k ∈ PciMap.keys m ∨ k ∈ ps := by
  induction ps with
  | nil => intro m k; simp [markAll]
  | cons p ps ih =>
    intro m k
    rw [markAll_cons, ih, PciMap.mem_keys_set]
    simp only [List.mem_cons]
    tauto

theorem nodup_keys_markAll (ps : List int32) :
    ∀ (m : PciMap), (PciMap.keys m).Nodup → (PciMap.keys (markAll ps m)).Nodup := by
  induction ps with
  | nil => intro m h; exact h
  | cons p ps ih =>
    intro m h
    exact ih _ (PciMap.nodup_keys_set m p true h)

/-! ## The traversal marks exactly the PCIs in scope -/

theorem visitNeighbor_eq (kp : MetricKeyParsers) (store : List Entry) (root : Entry)
    (recurse : Entry → PciMap → Option Error × PciMap) (below : Entry → List int32)
    (hrec : ∀ e m, recurse e m = (none, markAll (below e) m))
    (m : PciMap) (n : NeighborCellItem) :
    visitNeighbor kp store recurse root (none, m) n =
      (none, markAll (recordPcis false kp store root below n) m) := by
  unfold visitNeighbor recordPcis
  cases hf : neighborFields n with
  | none => rfl
  | some f =>
    obtain ⟨cgi, pci, arfcn⟩ := f
    by_cases heq : isCGIEqual kp root.Key.CellGlobalID cgi = true
    · simp [heq, markAll]
    · simp only [Bool.not_eq_true] at heq
      cases hl : getEntryWithNeighborCGI kp store cgi with
      | none =>
        by_cases ha : root.Value.Metric.ARFCN = arfcn <;> simp [heq, hl, ha, markAll]
      | some live =>
        by_cases ha : root.Value.Metric.ARFCN = arfcn <;>
          simp [heq, hl, ha, hrec, markAll_append, markAll_cons, markAll_nil, decidingArfcn]

theorem foldl_visitNeighbor_eq (kp : MetricKeyParsers) (store : List Entry) (root : Entry)
    (recurse : Entry → PciMap → Option Error × PciMap) (below : Entry → List int32)
    (hrec : ∀ e m, recurse e m = (none, markAll (below e) m)) (ns : List NeighborCellItem) :
    ∀ (m : PciMap), ns.foldl (visitNeighbor kp store recurse root) (none, m) =
      (none, markAll (ns.map (recordPcis false kp store root below)).flatten m) := by
  induction ns with
  | nil => intro m; rfl
  | cons n ns ih =>
    intro m
    rw [List.foldl_cons, visitNeighbor_eq kp store root recurse below hrec, ih]
    simp [markAll_append]

theorem neighborTraversalLevels_eq (kp : MetricKeyParsers) (store : List Entry) (root : Entry)
    (levels : Nat) : ∀ (entry : Entry) (m : PciMap),
      neighborTraversalLevels kp store root levels entry m =
        (none, markAll (scopeLevels false kp store root levels entry) m) := by
  induction levels with
  | zero => intro entry m; rfl
  | succ l ih =>
    intro entry m
    exact foldl_visitNeighbor_eq kp store root _ _ ih entry.Value.Neighbors m

theorem neighborTraversal_root (kp : MetricKeyParsers) (store : List Entry) (root : Entry)
    (m : PciMap) :
    neighborTraversal kp store root root 1 m = (none, markAll (occupiedPcis kp store root) m) :=
  neighborTraversalLevels_eq kp store root 2 root m

/-- The recursion equation of the source: the guard on the depth, then the loop
over the neighbors with the recursive call one level deeper. -/
theorem neighborTraversal_unfold (kp : MetricKeyParsers) (store : List Entry)
    (root entry : Entry) (cDepth : Nat) (m : PciMap) :
    neighborTraversal kp store root entry cDepth m =
      if cDepth > SearchDepth then (none, m)
      else entry.Value.Neighbors.foldl
        (visitNeighbor kp store (fun e m' => neighborTraversal kp store root e (cDepth + 1) m')
          root) (none, m) := by
  unfold neighborTraversal
  by_cases h : cDepth > SearchDepth
  · have h0 : SearchDepth + 1 - cDepth = 0 := by omega
    rw [if_pos h, h0]; rfl
  · have h1 : SearchDepth + 1 - cDepth = (SearchDepth + 1 - (cDepth + 1)) + 1 := by omega
    rw [if_neg h, h1]; rfl

/-! ## The PCIs in scope, record by record -/

theorem mem_recordPcis (kp : MetricKeyParsers) (store : List Entry) (root : Entry)
    (below : Entry → List int32) (n : NeighborCellItem) (p : int32) :
    p ∈ recordPcis false kp store root below n ↔
      RecordBrings kp store root n p ∨
        ∃ e, resolveRecord kp store root n = some e ∧ p ∈ below e := by
  cases hf : neighborFields n with
  | none =>
    constructor
    · intro h
      simp [recordPcis, hf] at h
    · rintro (⟨c, q, a, h, _⟩ | ⟨e, he, _⟩)
      · rw [hf] at h
        exact absurd h (by simp)
      · simp [resolveRecord, hf] at he
  | some f =>
    obtain ⟨cgi, pci, arfcn⟩ := f
    by_cases heq : isCGIEqual kp root.Key.CellGlobalID cgi = true
    · constructor
      · intro h
        simp [recordPcis, hf, heq] at h
      · rintro (⟨c, q, a, h, hne, _⟩ | ⟨e, he, _⟩)
        · rw [hf] at h
          simp only [Option.some.injEq, Prod.mk.injEq] at h
          rw [← h.1, heq] at hne
          exact absurd hne (by simp)
        · simp [resolveRecord, hf, heq] at he
    · simp only [Bool.not_eq_true] at heq
      have hres : resolveRecord kp store root n = getEntryWithNeighborCGI kp store cgi := by
        simp [resolveRecord, hf, heq]
      have hrec : recordPcis false kp store root below n =
          match getEntryWithNeighborCGI kp store cgi with
          | some live =>
            (if root.Value.Metric.ARFCN = arfcn then [live.Value.Metric.PCI] else []) ++
              below live
          | none => if root.Value.Metric.ARFCN = arfcn then [pci] else [] := by
        simp [recordPcis, hf, heq, decidingArfcn]
      have hbr : RecordBrings kp store root n p ↔
          (root.Value.Metric.ARFCN = arfcn ∧
            p = match getEntryWithNeighborCGI kp store cgi with
              | some live => live.Value.Metric.PCI
              | none => pci) := by
        constructor
        · rintro ⟨c, q, a, h, _, ha, hp⟩
          rw [hf] at h
          simp only [Option.some.injEq, Prod.mk.injEq] at h
          obtain ⟨h1, h2, h3⟩ := h
          subst h1; subst h2; subst h3
          exact ⟨ha, hp⟩
        · rintro ⟨ha, hp⟩
          exact ⟨cgi, pci, arfcn, hf, heq, ha, hp⟩
      rw [hrec, hbr, hres]
      cases hl : getEntryWithNeighborCGI kp store cgi with
      | none =>
        by_cases ha : root.Value.Metric.ARFCN = arfcn <;> simp [ha]
      | some live =>
        by_cases ha : root.Value.Metric.ARFCN = arfcn <;> simp [ha]

/-- The PCIs that the traversal marks, spelled out: `p` is marked exactly when a
neighbor record of the root brings it, or a neighbor record of a live entry that
a record of the root resolves to brings it. -/
theorem mem_occupiedPcis (kp : MetricKeyParsers) (store : List Entry) (root : Entry)
    (p : int32) :
    p ∈ occupiedPcis kp store root ↔
      ∃ n1 ∈ root.Value.Neighbors, RecordBrings kp store root n1 p ∨
        ∃ e1, resolveRecord kp store root n1 = some e1 ∧
          ∃ n2 ∈ e1.Value.Neighbors, RecordBrings kp store root n2 p := by
  unfold occupiedPcis SearchDepth
  simp only [scopeLevels, List.mem_flatten, List.mem_map]
  constructor
  · rintro ⟨l, ⟨n1, hn1, rfl⟩, hp⟩
    refine ⟨n1, hn1, ?_⟩
    rcases (mem_recordPcis kp store root _ n1 p).mp hp with h | ⟨e1, he1, hp1⟩
    · exact Or.inl h
    · right
      refine ⟨e1, he1, ?_⟩
      simp only [scopeLevels, List.mem_flatten, List.mem_map] at hp1
      obtain ⟨l2, ⟨n2, hn2, rfl⟩, hp2⟩ := hp1
      refine ⟨n2, hn2, ?_⟩
      rcases (mem_recordPcis kp store root _ n2 p).mp hp2 with h | ⟨e2, _, hp3⟩
      · exact h
      · simp [scopeLevels] at hp3
  · rintro ⟨n1, hn1, h⟩
    refine ⟨_, ⟨n1, hn1, rfl⟩, ?_⟩
    rw [mem_recordPcis]
    rcases h with h | ⟨e1, he1, n2, hn2, h2⟩
    · exact Or.inl h
    · right
      refine ⟨e1, he1, ?_⟩
      simp only [scopeLevels, List.mem_flatten, List.mem_map]
      exact ⟨_, ⟨n2, hn2, rfl⟩, (mem_recordPcis kp store root _ n2 p).mpr (Or.inl h2)⟩

/-! ## `getAvailablePci` -/

theorem getEmptyPciMap_enough (fuel : Nat) (pools : List PCIPool) (hv : ValidPools pools)
    (hb : BelowMax pools) (hf : poolFuel pools ≤ fuel) :
    getEmptyPciMap fuel pools = some (.ok (fillPools pools [])) :=
  getEmptyPciMapFrom_enough fuel pools [] hv hb
    (fun r hr => le_trans (span_le_poolFuel pools r hr) hf)

theorem getAvailablePci_of_ok (kp : MetricKeyParsers) (range : PciMap → List (int32 × Bool))
    (store : List Entry) (fuel : Nat) (entry : Entry) (m0 : PciMap)
    (h0 : getEmptyPciMap fuel entry.Value.PCIPoolList = some (.ok m0)) :
    getAvailablePci kp range store fuel entry =
      if !PciMap.get (markAll (occupiedPcis kp store entry) m0) entry.Value.Metric.PCI then
        some (0, false, none)
      else
        match (range (markAll (occupiedPcis kp store entry) m0)).find? (fun kv => !kv.2) with
        | some kv => some (kv.1, true, none)
        | none => some (0, false, some poolExhausted) := by
  unfold getAvailablePci
  rw [h0]
  simp only [neighborTraversal_root]
  rfl

theorem getAvailablePci_of_error (kp : MetricKeyParsers) (range : PciMap → List (int32 × Bool))
    (store : List Entry) (fuel : Nat) (entry : Entry) (err : Error)
    (h0 : getEmptyPciMap fuel entry.Value.PCIPoolList = some (.error err)) :
    getAvailablePci kp range store fuel entry = some (0, false, some err) := by
  unfold getAvailablePci
  rw [h0]

theorem getAvailablePci_of_none (kp : MetricKeyParsers) (range : PciMap → List (int32 × Bool))
    (store : List Entry) (fuel : Nat) (entry : Entry)
    (h0 : getEmptyPciMap fuel entry.Value.PCIPoolList = none) :
    getAvailablePci kp range store fuel entry = none := by
  unfold getAvailablePci
  rw [h0]

theorem get_empty_fillPools (pools : List PCIPool) (hv : ValidPools pools) (hb : BelowMax pools)
    (k : int32) : PciMap.get (fillPools pools []) k = false :=
  get_fillPools pools [] k hv hb rfl

theorem mem_keys_empty_fillPools (pools : List PCIPool) (hv : ValidPools pools)
    (hb : BelowMax pools) (k : int32) :
    k ∈ PciMap.keys (fillPools pools []) ↔ InPools pools k := by
  rw [mem_keys_fillPools pools [] k hv hb]
  simp [PciMap.keys]

theorem nodup_keys_empty_fillPools (pools : List PCIPool) :
    (PciMap.keys (fillPools pools [])).Nodup :=
  nodup_keys_fillPools pools [] (by simp [PciMap.keys])

/-- The value stored for a PCI after the traversal: occupied exactly when marked. -/
theorem get_occupancy (pools : List PCIPool) (hv : ValidPools pools) (hb : BelowMax pools)
    (ps : List int32) (k : int32) :
    PciMap.get (markAll ps (fillPools pools [])) k = decide (k ∈ ps) := by
  rw [get_markAll, get_empty_fillPools pools hv hb]
  simp

/-! ## Claims on `getAvailablePci` -/

/-- C1 (as amended): for an entry whose pool ranges all satisfy
`LowerPci <= UpperPci < 2147483647`, if the entry's current PCI is not among the
PCIs in scope (those of the neighbor records within two hops that are not the
root's own and whose snapshot ARFCN is the root's, taken from the live store
entry when the record resolves and from the snapshot otherwise), then
`getAvailablePci` returns `(0, false, nil)` as soon as the fuel covers the pool. -/
theorem getAvailablePci_no_conflict (kp : MetricKeyParsers)
    (range : PciMap → List (int32 × Bool)) (store : List Entry) (fuel : Nat) (entry : Entry)
    (hv : ValidPools entry.Value.PCIPoolList) (hb : BelowMax entry.Value.PCIPoolList)
    (hfree : entry.Value.Metric.PCI ∉ occupiedPcis kp store entry)
    (hfuel : poolFuel entry.Value.PCIPoolList ≤ fuel) :
    getAvailablePci kp range store fuel entry = some (0, false, none) := by
  rw [getAvailablePci_of_ok kp range store fuel entry _
    (getEmptyPciMap_enough fuel _ hv hb hfuel), get_occupancy _ hv hb]
  simp [hfree]

/-- Witness of C1: A (PCI 5, ARFCN 100) with neighbor B (PCI 6, ARFCN 100) and pool `[0, 10]`. -/
theorem getAvailablePci_no_conflict_witness :
    getAvailablePci sampleParsers insertionOrder [quietA, quietB] 11 quietA =
      some (0, false, none) :=
  getAvailablePci_no_conflict sampleParsers insertionOrder [quietA, quietB] 11 quietA
    (by decide) (by decide) (by decide) (by decide)

/-- C1 fails as stated: B resolves in the store to a live entry on another ARFCN
(200) that uses A's PCI 5, so no cell on A's ARFCN uses PCI 5 when the live ARFCN
is the one that counts; yet the record's snapshot ARFCN is A's, the live PCI is
marked, and `getAvailablePci` reports a change. -/
theorem getAvailablePci_no_conflict_counterexample :
    ValidPools staleA.Value.PCIPoolList ∧
      staleA.Value.Metric.PCI ∉ claimedPcis sampleParsers [staleA, movedB] staleA ∧
      getAvailablePci sampleParsers insertionOrder [staleA, movedB] 11 staleA =
        some (0, true, none) := by
  decide

/-- C2: whenever `getAvailablePci` returns `changed = true`, whatever the order in
which the map is enumerated, the returned PCI lies in one of the entry's pool
ranges, is none of the PCIs that the traversal marked occupied (its value in the
map after the traversal is free), differs from the entry's current PCI, and no
error is returned. -/
theorem getAvailablePci_changed (kp : MetricKeyParsers)
    (range : PciMap → List (int32 × Bool)) (store : List Entry) (fuel : Nat) (entry : Entry)
    (p : int32) (err : Option Error) (hrange : FairRange range)
    (h : getAvailablePci kp range store fuel entry = some (p, true, err)) :
    InPools entry.Value.PCIPoolList p ∧ p ∉ occupiedPcis kp store entry ∧
      (∃ m0, getEmptyPciMap fuel entry.Value.PCIPoolList = some (.ok m0) ∧
        PciMap.get (neighborTraversal kp store entry entry 1 m0).2 p = false) ∧
      p ≠ entry.Value.Metric.PCI ∧ err = none := by
  cases h0 : getEmptyPciMap fuel entry.Value.PCIPoolList with
  | none =>
    rw [getAvailablePci_of_none kp range store fuel entry h0] at h
    simp at h
  | some r =>
    cases r with
    | error e =>
      rw [getAvailablePci_of_error kp range store fuel entry e h0] at h
      simp at h
    | ok m0 =>
      obtain ⟨hv, hb, hm0⟩ := getEmptyPciMapFrom_ok fuel _ [] m0 h0
      subst hm0
      rw [getAvailablePci_of_ok kp range store fuel entry _ h0] at h
      have hget := get_occupancy entry.Value.PCIPoolList hv hb (occupiedPcis kp store entry)
      by_cases hcur : entry.Value.Metric.PCI ∈ occupiedPcis kp store entry
      · rw [hget, if_neg (by simp [hcur])] at h
        cases hfind : (range (markAll (occupiedPcis kp store entry)
            (fillPools entry.Value.PCIPoolList []))).find? (fun kv => !kv.2) with
        | none =>
          rw [hfind] at h
          simp at h
        | some kv =>
          rw [hfind] at h
          simp only [Option.some.injEq, Prod.mk.injEq, true_and] at h
          obtain ⟨hp, herr⟩ := h
          have hfree : kv.2 = false := by simpa using List.find?_some hfind
          have hmem : kv ∈ markAll (occupiedPcis kp store entry)
              (fillPools entry.Value.PCIPoolList []) :=
            (hrange _).subset (List.mem_of_find?_eq_some hfind)
          have hnd := nodup_keys_markAll (occupiedPcis kp store entry) _
            (nodup_keys_empty_fillPools entry.Value.PCIPoolList)
          have hval := PciMap.get_of_mem _ kv.1 kv.2 hnd hmem
          rw [hp, hfree, hget] at hval
          have hnot : p ∉ occupiedPcis kp store entry := by simpa using hval
          have hkey : p ∈ PciMap.keys (markAll (occupiedPcis kp store entry)
              (fillPools entry.Value.PCIPoolList [])) :=
            hp ▸ List.mem_map.mpr ⟨kv, hmem, rfl⟩
          rw [mem_keys_markAll, mem_keys_empty_fillPools _ hv hb] at hkey
          refine ⟨hkey.resolve_right hnot, hnot, ⟨_, rfl, ?_⟩, ?_, herr.symm⟩
          · rw [neighborTraversal_root, hget]
            simp [hnot]
          · intro e
            exact hnot (e ▸ hcur)
      · rw [hget, if_pos (by simp [hcur])] at h
        simp at h

/-- Witness of C2: A (PCI 5, ARFCN 100), neighbor B (PCI 5, ARFCN 100), pool `[0, 6]`;
enumerating the map backwards yields PCI 6. -/
theorem getAvailablePci_changed_witness :
    getAvailablePci sampleParsers List.reverse [] 7 clashA = some (6, true, none) ∧
      InPools clashA.Value.PCIPoolList 6 ∧ (6 : int32) ∉ occupiedPcis sampleParsers [] clashA ∧
      (6 : int32) ≠ clashA.Value.Metric.PCI :=
  have h : getAvailablePci sampleParsers List.reverse [] 7 clashA = some (6, true, none) := by
    decide
  have r := getAvailablePci_changed sampleParsers List.reverse [] 7 clashA 6 none
    (fun m => List.reverse_perm m) h
  ⟨h, r.1, r.2.1, r.2.2.2.1⟩

/-- C3 (as amended): for an entry whose pool ranges all satisfy
`LowerPci <= UpperPci < 2147483647`, if the entry's current PCI is marked occupied
and every integer of every pool range is marked occupied by the traversal, then
`getAvailablePci` returns PCI 0, `changed = false` and the Unavailable error. -/
theorem getAvailablePci_exhausted (kp : MetricKeyParsers)
    (range : PciMap → List (int32 × Bool)) (store : List Entry) (fuel : Nat) (entry : Entry)
    (hrange : FairRange range)
    (hv : ValidPools entry.Value.PCIPoolList) (hb : BelowMax entry.Value.PCIPoolList)
    (hcur : entry.Value.Metric.PCI ∈ occupiedPcis kp store entry)
    (hall : ∀ k, InPools entry.Value.PCIPoolList k → k ∈ occupiedPcis kp store entry)
    (hfuel : poolFuel entry.Value.PCIPoolList ≤ fuel) :
    getAvailablePci kp range store fuel entry = some (0, false, some poolExhausted) := by
  rw [getAvailablePci_of_ok kp range store fuel entry _
    (getEmptyPciMap_enough fuel _ hv hb hfuel), get_occupancy _ hv hb, if_neg (by simp [hcur])]
  have hnone : (range (markAll (occupiedPcis kp store entry)
      (fillPools entry.Value.PCIPoolList []))).find? (fun kv => !kv.2) = none := by
    rw [List.find?_eq_none]
    intro kv hkv
    have hmem := (hrange _).subset hkv
    have hnd := nodup_keys_markAll (occupiedPcis kp store entry) _
      (nodup_keys_empty_fillPools entry.Value.PCIPoolList)
    have hval := PciMap.get_of_mem _ kv.1 kv.2 hnd hmem
    have hkey : kv.1 ∈ PciMap.keys (markAll (occupiedPcis kp store entry)
        (fillPools entry.Value.PCIPoolList [])) := List.mem_map.mpr ⟨kv, hmem, rfl⟩
    rw [mem_keys_markAll, mem_keys_empty_fillPools _ hv hb] at hkey
    have hocc : kv.1 ∈ occupiedPcis kp store entry := hkey.elim (hall kv.1) id
    rw [get_occupancy _ hv hb] at hval
    simp [← hval, hocc]
  rw [hnone]

/-- Witness of C3: pool `[5, 5]`, A uses PCI 5 and so does its neighbor on A's ARFCN. -/
theorem getAvailablePci_exhausted_witness :
    getAvailablePci sampleParsers insertionOrder [] 1 fullA = some (0, false, some poolExhausted) :=
  getAvailablePci_exhausted sampleParsers insertionOrder [] 1 fullA
    (fun m => List.Perm.refl m) (by decide) (by decide) (by decide)
    (by
      rintro k ⟨r, hr, h1, h2⟩
      have hr' : r = ⟨5, 5⟩ := by simpa [fullA, sampleEntry] using hr
      subst hr'
      have hk : k = 5 := Subtype.ext (le_antisymm h2 h1)
      subst hk
      decide)
    (by decide)

/-- C3 fails as stated: with pool `[5, 5]` and a neighbor on A's ARFCN using PCI 5,
every pool value is occupied, but A's own PCI 7 is not marked, so
`getAvailablePci` returns `(0, false, nil)` and no error. -/
theorem getAvailablePci_exhausted_counterexample :
    ValidPools outsideA.Value.PCIPoolList ∧
      (∀ k, InPools outsideA.Value.PCIPoolList k → k ∈ occupiedPcis sampleParsers [] outsideA) ∧
      getAvailablePci sampleParsers insertionOrder [] 1 outsideA = some (0, false, none) := by
  refine ⟨by decide, ?_, by decide⟩
  rintro k ⟨r, hr, h1, h2⟩
  have hr' : r = ⟨5, 5⟩ := by simpa [outsideA, sampleEntry] using hr
  subst hr'
  have hk : k = 5 := Subtype.ext (le_antisymm h2 h1)
  subst hk
  decide

/-! ## Claims on `getEmptyPciMap` -/

/-- C4: evaluation at the failing input. The single range `[2147483647, 2147483647]`
satisfies `LowerPci <= UpperPci`, yet `getEmptyPciMap` returns no map on it however
much fuel it is given: after the insertion of `2147483647` the counter wraps to
`-2147483648` and never exceeds `UpperPci`. -/
theorem getEmptyPciMap_never_returns_at_max :
    ValidPools [⟨int32.max, int32.max⟩] ∧
      ∀ fuel : Nat, getEmptyPciMap fuel [⟨int32.max, int32.max⟩] = none := by
  refine ⟨by decide, fun fuel => ?_⟩
  have hnot : ¬ int32.max > int32.max := by decide
  simp only [getEmptyPciMap, getEmptyPciMapFrom, if_neg hnot,
    pciRangeLoop_none_of_max int32.max rfl fuel int32.max []]

/-- C5: evaluation at the failing input. The list holds the reversed range `[5, 3]`
after the valid range `[2147483647, 2147483647]`; `getEmptyPciMap` never gets to
report the error, and neither does `getAvailablePci`. -/
theorem getEmptyPciMap_error_never_reported :
    (∃ r ∈ [(⟨int32.max, int32.max⟩ : PCIPool), ⟨5, 3⟩], r.LowerPci > r.UpperPci) ∧
      (∀ fuel : Nat, getEmptyPciMap fuel [⟨int32.max, int32.max⟩, ⟨5, 3⟩] = none) ∧
      ∀ fuel : Nat, getAvailablePci sampleParsers insertionOrder [] fuel
        (sampleEntry 1 5 100 [] [⟨int32.max, int32.max⟩, ⟨5, 3⟩]) = none := by
  have hnot : ¬ int32.max > int32.max := by decide
  have hdiv : ∀ fuel : Nat,
      getEmptyPciMap fuel [⟨int32.max, int32.max⟩, ⟨5, 3⟩] = none := by
    intro fuel
    simp only [getEmptyPciMap, getEmptyPciMapFrom, if_neg hnot,
      pciRangeLoop_none_of_max int32.max rfl fuel int32.max []]
  refine ⟨by decide, hdiv, fun fuel => ?_⟩
  exact getAvailablePci_of_none _ _ _ _ _ (hdiv fuel)

/-- What `getEmptyPciMap` does on the pool lists whose ranges end below the largest
`int32`: with fuel for the longest range it returns a map and no error, the keys of
the map are exactly the integers of the ranges, each key is held once, and every
key maps to `false`. -/
theorem getEmptyPciMap_below_max (fuel : Nat) (pools : List PCIPool) (hv : ValidPools pools)
    (hb : BelowMax pools) (hf : poolFuel pools ≤ fuel) :
    ∃ m, getEmptyPciMap fuel pools = some (.ok m) ∧ (∀ k, k ∈ PciMap.keys m ↔ InPools pools k) ∧
      (PciMap.keys m).Nodup ∧ ∀ kv ∈ m, kv.2 = false := by
  refine ⟨_, getEmptyPciMap_enough fuel pools hv hb hf,
    mem_keys_empty_fillPools pools hv hb, nodup_keys_empty_fillPools pools, ?_⟩
  intro kv hkv
  rw [← PciMap.get_of_mem _ kv.1 kv.2 (nodup_keys_empty_fillPools pools) hkv]
  exact get_empty_fillPools pools hv hb kv.1

/-- On the pool lists whose ranges end below the largest `int32`, `getEmptyPciMap`
returns an error exactly when some range is reversed. -/
theorem getEmptyPciMap_error_iff_below_max (fuel : Nat) (pools : List PCIPool)
    (hb : BelowMax pools) (hf : poolFuel pools ≤ fuel) :
    (∃ e, getEmptyPciMap fuel pools = some (.error e)) ↔ ∃ r ∈ pools, r.LowerPci > r.UpperPci := by
  constructor
  · rintro ⟨e, he⟩
    exact (getEmptyPciMapFrom_error fuel pools [] e he).1
  · intro hbad
    have key : ∀ (ps : List PCIPool) (m : PciMap), BelowMax ps → (∀ r ∈ ps, r.span ≤ fuel) →
        (∃ r ∈ ps, r.LowerPci > r.UpperPci) →
        ∃ e, getEmptyPciMapFrom fuel ps m = some (.error e) := by
      intro ps
      induction ps with
      | nil => intro m _ _ h; simp at h
      | cons r rest ih =>
        intro m hb' hf' h
        by_cases hgt : r.LowerPci > r.UpperPci
        · exact ⟨_, by rw [getEmptyPciMapFrom, if_pos hgt]⟩
        · have hr : r.LowerPci ≤ r.UpperPci := by
            rw [int32.le_def]
            have : ¬ r.UpperPci.val < r.LowerPci.val := hgt
            omega
          have hu : r.UpperPci.val < 2147483647 :=
            (int32.lt_def _ _).mp (hb' r (List.mem_cons_self _ _))
          have hloop := pciRangeLoop_enough r.UpperPci hu fuel r.span r.LowerPci m
            (PCIPool.span_spec r hr) (hf' r (List.mem_cons_self _ _))
          obtain ⟨x, hx, hxgt⟩ := h
          have hx' : x ∈ rest := by
            rcases List.mem_cons.mp hx with e | hx
            · subst e; exact absurd hxgt hgt
            · exact hx
          obtain ⟨e, he⟩ := ih (insertRange r.span r.LowerPci m)
            (fun y hy => hb' y (List.mem_cons_of_mem _ hy))
            (fun y hy => hf' y (List.mem_cons_of_mem _ hy)) ⟨x, hx', hxgt⟩
          exact ⟨e, by simp only [getEmptyPciMapFrom, if_neg hgt, hloop, he]⟩
    exact key pools [] hb (fun r hr => le_trans (span_le_poolFuel pools r hr) hf) hbad

/-! ## Claims on `getEntryWithNeighborCGI` -/

theorem foldl_targetEntry (kp : MetricKeyParsers) (id : Cgi) (store : List Entry) :
    store.foldl
      (fun targetEntry entry =>
        if isCGIEqual kp id entry.Key.CellGlobalID then some entry else targetEntry) none =
      (store.filter (fun e => isCGIEqual kp id e.Key.CellGlobalID)).getLast? := by
  induction store using List.reverseRecOn with
  | nil => rfl
  | append_singleton l a ih =>
    rw [List.foldl_append, List.filter_append]
    by_cases h : isCGIEqual kp id a.Key.CellGlobalID = true
    · simp [h]
    · simp [h, ih]

/-- C6 (as amended): `getEntryWithNeighborCGI` returns the last entry of the
sequence produced by the store whose key identity is equal (`isCGIEqual`) to the
target, and nothing when no entry matches. -/
theorem getEntryWithNeighborCGI_last (kp : MetricKeyParsers) (store : List Entry) (id : Cgi) :
    getEntryWithNeighborCGI kp store id =
      (store.filter (fun e => isCGIEqual kp id e.Key.CellGlobalID)).getLast? :=
  foldl_targetEntry kp id store

/-- C6 fails as stated: of two entries stored under the identity of cell 2, the
lookup returns the second, whereas the first match is the first. -/
theorem getEntryWithNeighborCGI_first_counterexample :
    getEntryWithNeighborCGI sampleParsers [twinFirst, twinSecond] (sampleCgi 2) = some twinSecond ∧
      [twinFirst, twinSecond].find? (fun e => isCGIEqual sampleParsers (sampleCgi 2)
        e.Key.CellGlobalID) = some twinFirst ∧
      twinFirst ≠ twinSecond := by
  decide

/-! ## Claims on `neighborTraversal` -/

theorem get_neighborTraversal_of_get (kp : MetricKeyParsers) (store : List Entry)
    (root entry : Entry) (cDepth : Nat) (m : PciMap) (k : int32) (h : PciMap.get m k = true) :
    PciMap.get (neighborTraversal kp store root entry cDepth m).2 k = true := by
  unfold neighborTraversal
  rw [neighborTraversalLevels_eq, get_markAll, h]
  rfl

/-- C7 (as amended): for a neighbor record that is not the root's own and resolves
to a live store entry, the loop body hands the recursion a map in which the live
entry's PCI is marked occupied if and only if the ARFCN of the record's snapshot
equals the root's ARFCN; the live entry's own ARFCN is not consulted. So with
equal snapshot ARFCN the live PCI is occupied afterwards, and with a different
snapshot ARFCN the record contributes nothing but the recursion. -/
theorem visitNeighbor_live (kp : MetricKeyParsers) (store : List Entry) (root : Entry)
    (cDepth : Nat) (st : Option Error × PciMap) (n : NeighborCellItem) (neighborCGI : Cgi)
    (pci arfcn : int32) (live : Entry)
    (hf : neighborFields n = some (neighborCGI, pci, arfcn))
    (hne : isCGIEqual kp root.Key.CellGlobalID neighborCGI = false)
    (hl : getEntryWithNeighborCGI kp store neighborCGI = some live) :
    visitNeighbor kp store (fun e m => neighborTraversal kp store root e (cDepth + 1) m) root st n =
        neighborTraversal kp store root live (cDepth + 1)
          (if root.Value.Metric.ARFCN = arfcn then
            PciMap.set st.2 live.Value.Metric.PCI true else st.2) ∧
      (root.Value.Metric.ARFCN = arfcn →
        PciMap.get (visitNeighbor kp store
          (fun e m => neighborTraversal kp store root e (cDepth + 1) m) root st n).2
          live.Value.Metric.PCI = true) ∧
      (root.Value.Metric.ARFCN ≠ arfcn →
        visitNeighbor kp store (fun e m => neighborTraversal kp store root e (cDepth + 1) m)
          root st n = neighborTraversal kp store root live (cDepth + 1) st.2) := by
  have hstep : visitNeighbor kp store
      (fun e m => neighborTraversal kp store root e (cDepth + 1) m) root st n =
        neighborTraversal kp store root live (cDepth + 1)
          (if root.Value.Metric.ARFCN = arfcn then
            PciMap.set st.2 live.Value.Metric.PCI true else st.2) := by
    simp only [visitNeighbor, hf, hne, hl, Bool.not_false, if_true]
  refine ⟨hstep, ?_, ?_⟩
  · intro ha
    rw [hstep, if_pos ha]
    apply get_neighborTraversal_of_get
    rw [PciMap.get_set, if_pos rfl]
  · intro ha
    rw [hstep, if_neg ha]

/-- Witness of C7: the record of B in `quietA` resolves to `quietB` and carries A's ARFCN. -/
theorem visitNeighbor_live_witness :
    PciMap.get (visitNeighbor sampleParsers [quietA, quietB]
      (fun e m => neighborTraversal sampleParsers [quietA, quietB] quietA e (1 + 1) m)
      quietA (none, []) (sampleNeighbor 2 6 100)).2 quietB.Value.Metric.PCI = true :=
  (visitNeighbor_live sampleParsers [quietA, quietB] quietA 1 (none, [])
    (sampleNeighbor 2 6 100) (sampleCgi 2) 6 100 quietB (by decide) (by decide)
    (by decide)).2.1 (by decide)

/-- C7 fails as stated: the live entry of B is on A's ARFCN and uses A's PCI 5, but
the record of B in A's neighbor list carries another ARFCN; the live PCI is not
marked and `getAvailablePci` sees no conflict. -/
theorem visitNeighbor_live_counterexample :
    getEntryWithNeighborCGI sampleParsers [driftA, driftB] (sampleCgi 2) = some driftB ∧
      driftB.Value.Metric.ARFCN = driftA.Value.Metric.ARFCN ∧
      PciMap.get (neighborTraversal sampleParsers [driftA, driftB] driftA driftA 1 []).2
        driftB.Value.Metric.PCI = false ∧
      getAvailablePci sampleParsers insertionOrder [driftA, driftB] 11 driftA =
        some (0, false, none) := by
  decide

theorem recordPcis_congr (kp : MetricKeyParsers) (s1 s2 : List Entry) (root : Entry)
    (below1 below2 : Entry → List int32) (n : NeighborCellItem)
    (hres : (resolveRecord kp s1 root n).map Entry.withoutNeighbors =
      (resolveRecord kp s2 root n).map Entry.withoutNeighbors)
    (hbelow : ∀ e1 e2, resolveRecord kp s1 root n = some e1 →
      resolveRecord kp s2 root n = some e2 → below1 e1 = below2 e2) :
    recordPcis false kp s1 root below1 n = recordPcis false kp s2 root below2 n := by
  unfold recordPcis
  unfold resolveRecord at hres hbelow
  cases hf : neighborFields n with
  | none => rfl
  | some f =>
    obtain ⟨cgi, pci, arfcn⟩ := f
    simp only [hf] at hres hbelow ⊢
    by_cases heq : isCGIEqual kp root.Key.CellGlobalID cgi = true
    · simp only [heq, if_true]
    · simp only [heq] at hres hbelow ⊢
      cases h1 : getEntryWithNeighborCGI kp s1 cgi with
      | none =>
        cases h2 : getEntryWithNeighborCGI kp s2 cgi with
        | none => rfl
        | some e2 => simp [h1, h2] at hres
      | some e1 =>
        cases h2 : getEntryWithNeighborCGI kp s2 cgi with
        | none => simp [h1, h2] at hres
        | some e2 =>
          simp only [h1, h2, Bool.false_eq_true, if_false, Option.map_some', Option.some.injEq]
            at hres hbelow
          have hpci : e1.Value.Metric.PCI = e2.Value.Metric.PCI :=
            congrArg (fun e => e.Value.Metric.PCI) hres
          simp only [Bool.false_eq_true, if_false, decidingArfcn, hpci, hbelow e1 e2 rfl rfl]

/-- C8: the occupancy map that `neighborTraversal` produces from depth 1 is the
same for two store states that resolve the root's neighbor records to the same
live entries and resolve the neighbor records of those entries to live entries
that differ at most in their neighbor lists; whatever lies further away (the
neighbor lists of the cells two hops from the root, and all cells beyond) does
not matter. -/
theorem neighborTraversal_depth_bound (kp : MetricKeyParsers) (s1 s2 : List Entry)
    (root : Entry) (m : PciMap)
    (h1 : ∀ n ∈ root.Value.Neighbors, resolveRecord kp s1 root n = resolveRecord kp s2 root n)
    (h2 : ∀ n1 ∈ root.Value.Neighbors, ∀ e1, resolveRecord kp s1 root n1 = some e1 →
      ∀ n2 ∈ e1.Value.Neighbors,
        (resolveRecord kp s1 root n2).map Entry.withoutNeighbors =
          (resolveRecord kp s2 root n2).map Entry.withoutNeighbors) :
    neighborTraversal kp s1 root root 1 m = neighborTraversal kp s2 root root 1 m := by
  rw [neighborTraversal_root, neighborTraversal_root]
  have hscope : occupiedPcis kp s1 root = occupiedPcis kp s2 root := by
    unfold occupiedPcis SearchDepth
    simp only [scopeLevels]
    congr 1
    apply List.map_congr_left
    intro n1 hn1
    apply recordPcis_congr
    · rw [h1 n1 hn1]
    · intro e1 e2 he1 he2
      have he : e1 = e2 := by
        rw [h1 n1 hn1, he2] at he1
        exact (Option.some.inj he1).symm
      subst he
      show (List.map (recordPcis false kp s1 root fun _ => []) e1.Value.Neighbors).flatten =
        (List.map (recordPcis false kp s2 root fun _ => []) e1.Value.Neighbors).flatten
      congr 1
      apply List.map_congr_left
      intro n2 hn2
      apply recordPcis_congr
      · exact h2 n1 hn1 e1 he1 n2 hn2
      · intro _ _ _ _
        rfl
  rw [hscope]

/-- Witness of C8: in the chain A - B - C - D - E - F the traversal from A yields
the same map as in the chain cut after C, marking only the PCIs of B and C. -/
theorem neighborTraversal_depth_bound_witness :
    neighborTraversal sampleParsers chainStore chainA chainA 1 [] =
        neighborTraversal sampleParsers cutStore chainA chainA 1 [] ∧
      neighborTraversal sampleParsers chainStore chainA chainA 1 [] =
        (none, [(12, true), (13, true)]) :=
  ⟨neighborTraversal_depth_bound sampleParsers chainStore cutStore chainA []
    (by decide)
    (by
      intro n1 hn1 e1 he1 n2 hn2
      have hn : n1 = sampleNeighbor 2 12 100 := by simpa [chainA, sampleEntry] using hn1
      subst hn
      have he : e1 = sampleEntry 2 12 100 [sampleNeighbor 3 13 100] pool0to10 := by
        have : resolveRecord sampleParsers chainStore chainA (sampleNeighbor 2 12 100) =
            some (sampleEntry 2 12 100 [sampleNeighbor 3 13 100] pool0to10) := by decide
        rw [this] at he1
        exact (Option.some.inj he1).symm
      subst he
      have hn' : n2 = sampleNeighbor 3 13 100 := by simpa [sampleEntry] using hn2
      subst hn'
      decide),
    by decide⟩

/-! ## Claims on the event handling of `resolvePciConflict` -/

/-- C9 (as amended): for every store event of type Created, the handling of the
event invokes `getAvailablePci` on the event's entry and, when it returns
`changed = true` without error, calls `UpdatePci` with the returned PCI under the
key made of the entry's cell identity. -/
theorem resolvePciConflictEvent_created (kp : MetricKeyParsers)
    (range : PciMap → List (int32 × Bool))
    (update : List Entry → Key → int32 → List Entry × Option Error)
    (fuel : Nat) (store : List Entry) (e : Event) (pci : int32)
    (hc : e.Typ = EventType.Created)
    (hres : getAvailablePci kp range store fuel e.Value = some (pci, true, none)) :
    resolvePciConflictEvent kp range update fuel store e =
      some (update store (NewKey e.Value.Key.CellGlobalID) pci).1 := by
  simp [resolvePciConflictEvent, hc, hres]

/-- Witness of C9: a Created event for `clashA` moves the stored A from PCI 5 to PCI 0. -/
theorem resolvePciConflictEvent_created_witness :
    resolvePciConflictEvent sampleParsers insertionOrder UpdatePci 7 [clashA]
        ⟨clashA.Key, clashA, EventType.Created⟩ =
      some (UpdatePci [clashA] (NewKey clashA.Key.CellGlobalID) 0).1 :=
  resolvePciConflictEvent_created sampleParsers insertionOrder UpdatePci 7 [clashA]
    ⟨clashA.Key, clashA, EventType.Created⟩ 0 rfl (by decide)

/-- C9 fails as stated: on an Updated event for `clashA`, whose resolution would
return `changed = true`, the handling of the event leaves the store as it is,
although the call of `UpdatePci` would have changed it. -/
theorem resolvePciConflictEvent_updated_counterexample :
    getAvailablePci sampleParsers insertionOrder [clashA] 7 clashA = some (0, true, none) ∧
      resolvePciConflictEvent sampleParsers insertionOrder UpdatePci 7 [clashA]
        ⟨clashA.Key, clashA, EventType.Updated⟩ = some [clashA] ∧
      (UpdatePci [clashA] (NewKey clashA.Key.CellGlobalID) 0).1 ≠ [clashA] := by
  decide

/-- C10: the handling of an event writes to the store only through the one call of
`UpdatePci` that follows a resolution with `changed = true` and no error. Whenever
the resolution of the event returns an error or `changed = false`, the store is
left as it was; and whenever the store after the event differs from the store
before, the event is a Created one, its resolution returned some PCI with
`changed = true` and no error, and the new store is the result of `UpdatePci` for that
PCI. The resolution itself only reads the store. -/
theorem resolvePciConflictEvent_frame (kp : MetricKeyParsers)
    (range : PciMap → List (int32 × Bool))
    (update : List Entry → Key → int32 → List Entry × Option Error)
    (fuel : Nat) (store : List Entry) (e : Event) :
    (∀ pci changed err, getAvailablePci kp range store fuel e.Value = some (pci, changed, err) →
      (changed = false ∨ err ≠ none) →
      resolvePciConflictEvent kp range update fuel store e = some store) ∧
    (∀ store', resolvePciConflictEvent kp range update fuel store e = some store' →
      store' ≠ store →
      e.Typ = EventType.Created ∧
        ∃ pci, getAvailablePci kp range store fuel e.Value = some (pci, true, none) ∧
          store' = (update store (NewKey e.Value.Key.CellGlobalID) pci).1) := by
  constructor
  · intro pci changed err hres hno
    unfold resolvePciConflictEvent
    by_cases hc : e.Typ = EventType.Created
    · rw [if_pos hc, hres]
      cases err with
      | some x => simp
      | none =>
        rcases hno with h | h
        · simp [h]
        · exact absurd rfl h
    · rw [if_neg hc]
  · intro store' h hne
    unfold resolvePciConflictEvent at h
    by_cases hc : e.Typ = EventType.Created
    · rw [if_pos hc] at h
      cases hres : getAvailablePci kp range store fuel e.Value with
      | none => simp [hres] at h
      | some r =>
        obtain ⟨pci, changed, err⟩ := r
        rw [hres] at h
        cases err with
        | some x =>
          simp at h
          exact absurd h.symm hne
        | none =>
          cases changed with
          | false =>
            simp at h
            exact absurd h.symm hne
          | true =>
            simp at h
            exact ⟨hc, pci, rfl, h.symm⟩
    · rw [if_neg hc] at h
      exact absurd (Option.some.inj h).symm hne

/-- Witness of C10: a Created event for `fullA`, whose pool is exhausted, leaves the
store as it was, whereas one for `clashA` changes it by the update to PCI 0. -/
theorem resolvePciConflictEvent_frame_witness :
    resolvePciConflictEvent sampleParsers insertionOrder UpdatePci 7 [fullA]
        ⟨fullA.Key, fullA, EventType.Created⟩ = some [fullA] ∧
      ∃ pci, getAvailablePci sampleParsers insertionOrder [clashA] 7 clashA =
          some (pci, true, none) ∧
        (UpdatePci [clashA] (NewKey clashA.Key.CellGlobalID) 0).1 =
          (UpdatePci [clashA] (NewKey clashA.Key.CellGlobalID) pci).1 :=
  ⟨(resolvePciConflictEvent_frame sampleParsers insertionOrder UpdatePci 7 [fullA]
      ⟨fullA.Key, fullA, EventType.Created⟩).1 0 false (some poolExhausted) (by decide)
      (Or.inl rfl),
    ((resolvePciConflictEvent_frame sampleParsers insertionOrder UpdatePci 7 [clashA]
      ⟨clashA.Key, clashA, EventType.Created⟩).2
      (UpdatePci [clashA] (NewKey clashA.Key.CellGlobalID) 0).1 (by decide) (by decide)).2⟩

/-! ## Claims on `isCGIEqual` -/

theorem sameMetricKey_iff (kp : MetricKeyParsers) (t1 t2 : Technology)
    (x y : List Nat × Nat × Nat) :
    (t1 = t2 ∧ sameMetricKey kp x y = true) ↔
      (t1, kp.PlmnIDToUint32 x.1, x.2.1, x.2.2) = (t2, kp.PlmnIDToUint32 y.1, y.2.1, y.2.2) := by
  simp only [sameMetricKey, Bool.and_eq_true, decide_eq_true_eq, Prod.mk.injEq]
  tauto

theorem exists_some_eq_iff {α : Type} (a b : α) :
    (∃ k, some a = some k ∧ some b = some k) ↔ a = b := by
  constructor
  · rintro ⟨k, h1, h2⟩
    exact (Option.some.inj h1).trans (Option.some.inj h2).symm
  · intro h
    exact ⟨a, rfl, by rw [h]⟩

theorem isCGIEqual_eq_true_iff (kp : MetricKeyParsers) (s t : Cgi) :
    isCGIEqual kp s t = true ↔
      ∃ k, canonicalIdentity kp s = some k ∧ canonicalIdentity kp t = some k := by
  rcases s with (_ | sn) | (_ | se) | _ <;> rcases t with (_ | tn) | (_ | te) | _ <;>
    simp only [isCGIEqual, canonicalIdentity, Cgi.GetNRCgi, Cgi.GetEUtraCgi] <;>
    try (simp; done)
  · cases hs : kp.GetNRMetricKey sn with
    | none => simp
    | some sk =>
      cases ht : kp.GetNRMetricKey tn with
      | none => simp
      | some tk =>
        simp only [Option.map_some']
        rw [exists_some_eq_iff, ← sameMetricKey_iff]
        simp
  · cases hs : kp.GetNRMetricKey sn with
    | none => simp
    | some sk =>
      cases ht : kp.GetEUTRAMetricKey te with
      | none => simp
      | some tk =>
        simp only [Option.map_some']
        rw [exists_some_eq_iff, ← sameMetricKey_iff]
        simp
  · cases hs : kp.GetEUTRAMetricKey se with
    | none => simp
    | some sk =>
      cases ht : kp.GetNRMetricKey tn with
      | none => simp
      | some tk =>
        simp only [Option.map_some']
        rw [exists_some_eq_iff, ← sameMetricKey_iff]
        simp
  · cases hs : kp.GetEUTRAMetricKey se with
    | none => simp
    | some sk =>
      cases ht : kp.GetEUTRAMetricKey te with
      | none => simp
      | some tk =>
        simp only [Option.map_some']
        rw [exists_some_eq_iff, ← sameMetricKey_iff]
        simp

theorem isCGIEqual_symm (kp : MetricKeyParsers) (s t : Cgi) :
    isCGIEqual kp s t = isCGIEqual kp t s := by
  have h : ∀ a b, isCGIEqual kp a b = true → isCGIEqual kp b a = true := by
    intro a b hab
    obtain ⟨k, h1, h2⟩ := (isCGIEqual_eq_true_iff kp a b).mp hab
    exact (isCGIEqual_eq_true_iff kp b a).mpr ⟨k, h2, h1⟩
  cases hst : isCGIEqual kp s t with
  | true => exact (h s t hst).symm
  | false =>
    cases hts : isCGIEqual kp t s with
    | true => rw [h t s hts] at hst; exact absurd hst (by simp)
    | false => rfl

/-- C11: `isCGIEqual s t` is true exactly when both identities have a canonical
form (each carries an NR or an EUTRA payload that its technology's key parser
decodes) and the two canonical forms agree in the technology variant, the decoded
network id (the PLMN as an unsigned integer), the cell id and the technology tag.
A side without canonical form (no payload, or a decode failure) yields false, and
so do two sides of different variants, whatever their numeric fields. -/
theorem isCGIEqual_canonical (kp : MetricKeyParsers) (s t : Cgi) :
    (isCGIEqual kp s t = true ↔
      ∃ k, canonicalIdentity kp s = some k ∧ canonicalIdentity kp t = some k) ∧
    ((canonicalIdentity kp s = none ∨ canonicalIdentity kp t = none) →
      isCGIEqual kp s t = false) ∧
    (∀ ks kt, canonicalIdentity kp s = some ks → canonicalIdentity kp t = some kt →
      ks.1 ≠ kt.1 → isCGIEqual kp s t = false) := by
  refine ⟨isCGIEqual_eq_true_iff kp s t, ?_, ?_⟩
  · intro h
    cases hst : isCGIEqual kp s t with
    | false => rfl
    | true =>
      obtain ⟨k, h1, h2⟩ := (isCGIEqual_eq_true_iff kp s t).mp hst
      rcases h with h | h
      · rw [h1] at h; exact absurd h (by simp)
      · rw [h2] at h; exact absurd h (by simp)
  · intro ks kt hs ht hne
    cases hst : isCGIEqual kp s t with
    | false => rfl
    | true =>
      obtain ⟨k, h1, h2⟩ := (isCGIEqual_eq_true_iff kp s t).mp hst
      rw [hs] at h1
      rw [ht] at h2
      exact absurd ((Option.some.inj h1).trans (Option.some.inj h2).symm ▸ rfl) hne

/-- Witness of C11: with parsers that give both technologies the same tag, the NR
and the EUTRA identity of cell 1 have the same numeric fields and are not equal;
an identity whose cell identity does not decode is equal to nothing, itself included. -/
theorem isCGIEqual_canonical_witness :
    isCGIEqual untaggedParsers (sampleCgi 1) (sampleEutraCgi 1) = false ∧
      isCGIEqual untaggedParsers (sampleCgi 1) (sampleCgi 1) = true ∧
      isCGIEqual sampleParsers (Cgi.NRCgi (some ⟨[1, 2, 3], []⟩))
        (Cgi.NRCgi (some ⟨[1, 2, 3], []⟩)) = false :=
  ⟨(isCGIEqual_canonical untaggedParsers (sampleCgi 1) (sampleEutraCgi 1)).2.2
      (Technology.NR, 197121, 1, 0) (Technology.EUTRA, 197121, 1, 0)
      (by decide) (by decide) (by decide),
    (isCGIEqual_canonical untaggedParsers (sampleCgi 1) (sampleCgi 1)).1.mpr
      ⟨(Technology.NR, 197121, 1, 0), by decide, by decide⟩,
    (isCGIEqual_canonical sampleParsers (Cgi.NRCgi (some ⟨[1, 2, 3], []⟩))
      (Cgi.NRCgi (some ⟨[1, 2, 3], []⟩))).2.1 (Or.inl (by decide))⟩

/-- C12: on an identity `x` that carries an NR or an EUTRA payload and decodes,
`isCGIEqual` is reflexive, and it is transitive: `isCGIEqual x y` and
`isCGIEqual y z` imply `isCGIEqual x z`. -/
theorem isCGIEqual_refl_trans (kp : MetricKeyParsers) (x : Cgi)
    (hx : (canonicalIdentity kp x).isSome = true) :
    isCGIEqual kp x x = true ∧
      ∀ y z, isCGIEqual kp x y = true → isCGIEqual kp y z = true →
        isCGIEqual kp x z = true := by
  constructor
  · obtain ⟨k, hk⟩ := Option.isSome_iff_exists.mp hx
    exact (isCGIEqual_eq_true_iff kp x x).mpr ⟨k, hk, hk⟩
  · intro y z hxy hyz
    obtain ⟨k, h1, h2⟩ := (isCGIEqual_eq_true_iff kp x y).mp hxy
    obtain ⟨k', h3, h4⟩ := (isCGIEqual_eq_true_iff kp y z).mp hyz
    have hk : k = k' := Option.some.inj (h2.symm.trans h3)
    subst hk
    exact (isCGIEqual_eq_true_iff kp x z).mpr ⟨k, h1, h4⟩

/-- Witness of C12: the identity of sample cell 1 equals itself, and through an
identity with other PLMN bytes of the same value it equals a third one. -/
theorem isCGIEqual_refl_trans_witness :
    isCGIEqual sampleParsers (sampleCgi 1) (sampleCgi 1) = true ∧
      isCGIEqual sampleParsers (sampleCgi 1) (Cgi.NRCgi (some ⟨[1, 2, 3, 0, 0], [1, 9]⟩)) = true :=
  have h := isCGIEqual_refl_trans sampleParsers (sampleCgi 1) (by decide)
  ⟨h.1, h.2 (Cgi.NRCgi (some ⟨[1, 2, 3, 0], [1, 7]⟩)) (Cgi.NRCgi (some ⟨[1, 2, 3, 0, 0], [1, 9]⟩))
    (by decide) (by decide)⟩

/-! ## Further claims on `neighborTraversal` -/

theorem validPools_of_no_reversed (pools : List PCIPool)
    (h : ¬ ∃ r ∈ pools, r.LowerPci > r.UpperPci) : ValidPools pools := by
  intro r hr
  rw [int32.le_def]
  have : ¬ r.UpperPci.val < r.LowerPci.val := fun hlt => h ⟨r, hr, hlt⟩
  omega

theorem getEmptyPciMap_ok (fuel : Nat) (pools : List PCIPool) (m0 : PciMap)
    (h : getEmptyPciMap fuel pools = some (.ok m0)) :
    ValidPools pools ∧ BelowMax pools ∧ m0 = fillPools pools [] :=
  getEmptyPciMapFrom_ok fuel pools [] m0 h

theorem recordPcis_of_arfcn_ne (kp : MetricKeyParsers) (store : List Entry) (root : Entry)
    (below : Entry → List int32) (n : NeighborCellItem)
    (hn : ∀ c p a, neighborFields n = some (c, p, a) → a ≠ root.Value.Metric.ARFCN) :
    recordPcis false kp store root below n =
      match resolveRecord kp store root n with
      | some e => below e
      | none => [] := by
  unfold recordPcis resolveRecord
  cases hf : neighborFields n with
  | none => rfl
  | some f =>
    obtain ⟨cgi, pci, arfcn⟩ := f
    have ha : ¬ root.Value.Metric.ARFCN = arfcn := fun e => hn cgi pci arfcn hf e.symm
    by_cases heq : isCGIEqual kp root.Key.CellGlobalID cgi = true
    · simp [heq]
    · cases hl : getEntryWithNeighborCGI kp store cgi <;> simp [heq, ha, decidingArfcn]

theorem flatten_map_eq_nil {α β : Type} (l : List α) (f : α → List β)
    (h : ∀ a ∈ l, f a = []) : (l.map f).flatten = [] := by
  induction l with
  | nil => rfl
  | cons a l ih =>
    simp only [List.map_cons, List.flatten_cons, h a (List.mem_cons_self _ _), List.nil_append]
    exact ih (fun b hb => h b (List.mem_cons_of_mem _ hb))

theorem occupiedPcis_eq_nil_of_arfcn_ne (kp : MetricKeyParsers) (store : List Entry)
    (root : Entry)
    (h1 : ∀ n1 ∈ root.Value.Neighbors, ∀ c p a, neighborFields n1 = some (c, p, a) →
      a ≠ root.Value.Metric.ARFCN)
    (h2 : ∀ n1 ∈ root.Value.Neighbors, ∀ e1, resolveRecord kp store root n1 = some e1 →
      ∀ n2 ∈ e1.Value.Neighbors, ∀ c p a, neighborFields n2 = some (c, p, a) →
        a ≠ root.Value.Metric.ARFCN) :
    occupiedPcis kp store root = [] := by
  unfold occupiedPcis SearchDepth
  simp only [scopeLevels]
  apply flatten_map_eq_nil
  intro n1 hn1
  rw [recordPcis_of_arfcn_ne kp store root _ n1 (h1 n1 hn1)]
  cases he : resolveRecord kp store root n1 with
  | none => rfl
  | some e1 =>
    show (List.map (recordPcis false kp store root fun _ => []) e1.Value.Neighbors).flatten = []
    apply flatten_map_eq_nil
    intro n2 hn2
    rw [recordPcis_of_arfcn_ne kp store root _ n2 (h2 n1 hn1 e1 he n2 hn2)]
    cases resolveRecord kp store root n2 <;> rfl

/-- When every neighbor record visited within depth 2 (the records of the
root and those of the live entries that the root's records resolve to) carries a
snapshot ARFCN different from the root's ARFCN, `neighborTraversal` marks nothing:
it returns the map it was given, whatever PCIs those cells use, and
`getAvailablePci` returns `(0, false, nil)` on the map that `getEmptyPciMap`
produced. Whatever `getAvailablePci` returns has `changed = false`, and it does
return when the pool ranges end below the largest `int32` and the fuel covers the
pool. -/
theorem neighborTraversal_other_arfcn (kp : MetricKeyParsers)
    (range : PciMap → List (int32 × Bool)) (store : List Entry) (fuel : Nat) (root : Entry)
    (h1 : ∀ n1 ∈ root.Value.Neighbors, ∀ c p a, neighborFields n1 = some (c, p, a) →
      a ≠ root.Value.Metric.ARFCN)
    (h2 : ∀ n1 ∈ root.Value.Neighbors, ∀ e1, resolveRecord kp store root n1 = some e1 →
      ∀ n2 ∈ e1.Value.Neighbors, ∀ c p a, neighborFields n2 = some (c, p, a) →
        a ≠ root.Value.Metric.ARFCN) :
    (∀ m, neighborTraversal kp store root root 1 m = (none, m)) ∧
      (∀ m0, getEmptyPciMap fuel root.Value.PCIPoolList = some (.ok m0) →
        getAvailablePci kp range store fuel root = some (0, false, none)) ∧
      (∀ p changed err, getAvailablePci kp range store fuel root = some (p, changed, err) →
        changed = false) ∧
      (BelowMax root.Value.PCIPoolList → poolFuel root.Value.PCIPoolList ≤ fuel →
        ∃ p err, getAvailablePci kp range store fuel root = some (p, false, err)) := by
  have hocc := occupiedPcis_eq_nil_of_arfcn_ne kp store root h1 h2
  have hok : ∀ m0, getEmptyPciMap fuel root.Value.PCIPoolList = some (.ok m0) →
      getAvailablePci kp range store fuel root = some (0, false, none) := by
    intro m0 h0
    obtain ⟨hv, hb, hm⟩ := getEmptyPciMap_ok fuel _ m0 h0
    rw [getAvailablePci_of_ok kp range store fuel root m0 h0, hocc, markAll_nil, hm,
      get_empty_fillPools _ hv hb]
    rfl
  refine ⟨?_, hok, ?_, ?_⟩
  · intro m
    rw [neighborTraversal_root, hocc, markAll_nil]
  rotate_left
  · intro hb hf
    by_cases hbad : ∃ r ∈ root.Value.PCIPoolList, r.LowerPci > r.UpperPci
    · obtain ⟨e, he⟩ := (getEmptyPciMap_error_iff_below_max fuel _ hb hf).mpr hbad
      exact ⟨0, some e, getAvailablePci_of_error kp range store fuel root e he⟩
    · have hv := validPools_of_no_reversed _ hbad
      exact ⟨0, none, hok _ (getEmptyPciMap_enough fuel _ hv hb hf)⟩
  · intro p changed err h
    cases h0 : getEmptyPciMap fuel root.Value.PCIPoolList with
    | none =>
      rw [getAvailablePci_of_none kp range store fuel root h0] at h
      exact absurd h (by simp)
    | some r =>
      cases r with
      | error e =>
        rw [getAvailablePci_of_error kp range store fuel root e h0] at h
        simp only [Option.some.injEq, Prod.mk.injEq] at h
        exact h.2.1.symm
      | ok m0 =>
        rw [hok m0 h0] at h
        simp only [Option.some.injEq, Prod.mk.injEq] at h
        exact h.2.1.symm

/-- An instance: B and C use A's PCI 5 on other ARFCNs; nothing is marked. -/
theorem neighborTraversal_other_arfcn_witness :
    neighborTraversal sampleParsers [otherBandA, otherBandB] otherBandA otherBandA 1
        (fillPools pool0to10 []) = (none, fillPools pool0to10 []) ∧
      getAvailablePci sampleParsers insertionOrder [otherBandA, otherBandB] 11 otherBandA =
        some (0, false, none) :=
  have h := neighborTraversal_other_arfcn sampleParsers insertionOrder
    [otherBandA, otherBandB] 11 otherBandA
    (by
      intro n1 hn1 c p a hf
      have hn : n1 = sampleNeighbor 2 5 200 := by simpa [otherBandA, sampleEntry] using hn1
      subst hn
      have : (c, p, a) = (sampleCgi 2, (5 : int32), (200 : int32)) :=
        (Option.some.inj hf).symm
      rw [(Prod.mk.inj (Prod.mk.inj this).2).2]
      decide)
    (by
      intro n1 hn1 e1 he1 n2 hn2 c p a hf
      have hn : n1 = sampleNeighbor 2 5 200 := by simpa [otherBandA, sampleEntry] using hn1
      subst hn
      have he : e1 = otherBandB := by
        have : resolveRecord sampleParsers [otherBandA, otherBandB] otherBandA
            (sampleNeighbor 2 5 200) = some otherBandB := by decide
        rw [this] at he1
        exact (Option.some.inj he1).symm
      subst he
      have hn' : n2 = sampleNeighbor 3 5 300 := by simpa [otherBandB, sampleEntry] using hn2
      subst hn'
      have : (c, p, a) = (sampleCgi 3, (5 : int32), (300 : int32)) :=
        (Option.some.inj hf).symm
      rw [(Prod.mk.inj (Prod.mk.inj this).2).2]
      decide)
  ⟨h.1 _, h.2.1 (fillPools pool0to10 []) (by decide)⟩

/-- C14 (as amended): on the map that `getEmptyPciMap` returns for the entry's pool,
the keys of the occupancy map after `neighborTraversal` are the integers of the
pool ranges together with the PCIs that the traversal marked occupied. A marked
PCI outside the pool becomes a key, and every key outside the pool is occupied, so
that only integers of the pool are ever free. -/
theorem keys_after_neighborTraversal (kp : MetricKeyParsers) (store : List Entry)
    (fuel : Nat) (entry : Entry) (m0 : PciMap)
    (h0 : getEmptyPciMap fuel entry.Value.PCIPoolList = some (.ok m0)) :
    (∀ k, k ∈ PciMap.keys (neighborTraversal kp store entry entry 1 m0).2 ↔
      InPools entry.Value.PCIPoolList k ∨ k ∈ occupiedPcis kp store entry) ∧
    (∀ k, ¬ InPools entry.Value.PCIPoolList k →
      k ∈ PciMap.keys (neighborTraversal kp store entry entry 1 m0).2 →
      PciMap.get (neighborTraversal kp store entry entry 1 m0).2 k = true) ∧
    (∀ k, PciMap.get (neighborTraversal kp store entry entry 1 m0).2 k = false →
      k ∈ PciMap.keys (neighborTraversal kp store entry entry 1 m0).2 →
      InPools entry.Value.PCIPoolList k) := by
  obtain ⟨hv, hb, hm⟩ := getEmptyPciMap_ok fuel _ m0 h0
  subst hm
  have hkeys : ∀ k, k ∈ PciMap.keys (neighborTraversal kp store entry entry 1
      (fillPools entry.Value.PCIPoolList [])).2 ↔
      InPools entry.Value.PCIPoolList k ∨ k ∈ occupiedPcis kp store entry := by
    intro k
    rw [neighborTraversal_root, mem_keys_markAll, mem_keys_empty_fillPools _ hv hb]
  have hget : ∀ k, PciMap.get (neighborTraversal kp store entry entry 1
      (fillPools entry.Value.PCIPoolList [])).2 k = decide (k ∈ occupiedPcis kp store entry) := by
    intro k
    rw [neighborTraversal_root, get_occupancy _ hv hb]
  refine ⟨hkeys, ?_, ?_⟩
  · intro k hk hmem
    rw [hget]
    exact decide_eq_true (((hkeys k).mp hmem).resolve_left hk)
  · intro k hfree hmem
    rw [hget] at hfree
    have hnot : k ∉ occupiedPcis kp store entry := by simpa using hfree
    exact ((hkeys k).mp hmem).resolve_right hnot

/-- Witness of C14: for `farPciA` the keys after the traversal are `0, ..., 10` and `50`. -/
theorem keys_after_neighborTraversal_witness :
    PciMap.keys (neighborTraversal sampleParsers [] farPciA farPciA 1
        (fillPools pool0to10 [])).2 = [0, 1, 2, 3, 4, 5, 6, 7, 8, 9, 10, 50] ∧
      PciMap.get (neighborTraversal sampleParsers [] farPciA farPciA 1
        (fillPools pool0to10 [])).2 50 = true :=
  ⟨by decide,
    (keys_after_neighborTraversal sampleParsers [] 11 farPciA (fillPools pool0to10 [])
      (by decide)).2.1 50 (by decide) (by decide)⟩

/-- C14 fails as stated: the pool of `farPciA` is `[0, 10]` and its neighbor uses PCI
50 on A's ARFCN; after the traversal 50 is a key of the occupancy map although it
lies in no pool range. -/
theorem keys_after_neighborTraversal_counterexample :
    ValidPools farPciA.Value.PCIPoolList ∧
      getEmptyPciMap 11 farPciA.Value.PCIPoolList = some (.ok (fillPools pool0to10 [])) ∧
      (50 : int32) ∈ PciMap.keys (neighborTraversal sampleParsers [] farPciA farPciA 1
        (fillPools pool0to10 [])).2 ∧
      ¬ InPools farPciA.Value.PCIPoolList 50 := by
  decide

/-- C16: a neighbor record whose identity is equal (`isCGIEqual`) to the root's
identity leaves the state of the traversal as it is, at any depth, whatever the
store holds and whatever the recursion would do: nothing is marked, no live entry
is followed, and the record brings no PCI into scope. -/
theorem visitNeighbor_root_record (kp : MetricKeyParsers) (store : List Entry)
    (recurse : Entry → PciMap → Option Error × PciMap) (root : Entry)
    (st : Option Error × PciMap) (n : NeighborCellItem) (neighborCGI : Cgi) (pci arfcn : int32)
    (hf : neighborFields n = some (neighborCGI, pci, arfcn))
    (heq : isCGIEqual kp root.Key.CellGlobalID neighborCGI = true) :
    visitNeighbor kp store recurse root st n = st ∧
      resolveRecord kp store root n = none ∧
      ∀ p, ¬ RecordBrings kp store root n p := by
  refine ⟨?_, ?_, ?_⟩
  · simp [visitNeighbor, hf, heq]
  · simp [resolveRecord, hf, heq]
  · rintro p ⟨c, q, a, h, hne, _⟩
    rw [hf] at h
    simp only [Option.some.injEq, Prod.mk.injEq] at h
    rw [← h.1, heq] at hne
    exact absurd hne (by simp)

/-- Witness of C16: A (PCI 5) has the single neighbor B (PCI 6, same ARFCN), and B
lists A with PCI 5; the record of A leaves the map alone and `getAvailablePci`
reports no change for A. -/
theorem visitNeighbor_root_record_witness :
    visitNeighbor sampleParsers [quietA, quietB]
        (fun e m => neighborTraversal sampleParsers [quietA, quietB] quietA e 3 m) quietA
        (none, fillPools pool0to10 []) (sampleNeighbor 1 5 100) =
        (none, fillPools pool0to10 []) ∧
      neighborTraversal sampleParsers [quietA, quietB] quietA quietA 1 [] =
        (none, [(6, true)]) ∧
      getAvailablePci sampleParsers List.reverse [quietA, quietB] 12 quietA =
        some (0, false, none) :=
  ⟨(visitNeighbor_root_record sampleParsers [quietA, quietB] _ quietA
      (none, fillPools pool0to10 []) (sampleNeighbor 1 5 100) (sampleCgi 1) 5 100
      (by decide) (by decide)).1,
    by decide, by decide⟩

/-- C17: for a neighbor record that is not the root's own, a live store entry
supersedes the snapshot. When the store resolves the record, the loop body marks
at most the live entry's PCI and recurses into the live entry; the snapshot PCI
of the record plays no part. When the store does not resolve it, the loop body
marks the snapshot PCI if the snapshot ARFCN is the root's and does not recurse. -/
theorem visitNeighbor_supersedes (kp : MetricKeyParsers) (store : List Entry)
    (recurse : Entry → PciMap → Option Error × PciMap) (root : Entry)
    (st : Option Error × PciMap) (n : NeighborCellItem) (neighborCGI : Cgi) (pci arfcn : int32)
    (hf : neighborFields n = some (neighborCGI, pci, arfcn))
    (hne : isCGIEqual kp root.Key.CellGlobalID neighborCGI = false) :
    (∀ live, getEntryWithNeighborCGI kp store neighborCGI = some live →
      visitNeighbor kp store recurse root st n =
        recurse live (if root.Value.Metric.ARFCN = arfcn then
          PciMap.set st.2 live.Value.Metric.PCI true else st.2)) ∧
    (getEntryWithNeighborCGI kp store neighborCGI = none →
      visitNeighbor kp store recurse root st n =
        (st.1, if root.Value.Metric.ARFCN = arfcn then PciMap.set st.2 pci true else st.2)) ∧
    (∀ live p, getEntryWithNeighborCGI kp store neighborCGI = some live →
      RecordBrings kp store root n p → p = live.Value.Metric.PCI) := by
  refine ⟨?_, ?_, ?_⟩
  · intro live hl
    simp [visitNeighbor, hf, hne, hl]
  · intro hl
    simp [visitNeighbor, hf, hne, hl]
  · rintro live p hl ⟨c, q, a, h, _, _, hp⟩
    rw [hf] at h
    simp only [Option.some.injEq, Prod.mk.injEq] at h
    rw [← h.1, hl] at hp
    exact hp

/-- Witness of C17: A (PCI 5) records B with the snapshot PCI 5, but the live entry
of B uses PCI 7 on the same ARFCN; PCI 7 is marked, PCI 5 is not, and
`getAvailablePci` reports no change. -/
theorem visitNeighbor_supersedes_witness :
    visitNeighbor sampleParsers [snapshotA, repairedB] (fun _ m => (none, m)) snapshotA
        (none, []) (sampleNeighbor 2 5 100) = (none, [(7, true)]) ∧
      getAvailablePci sampleParsers insertionOrder [snapshotA, repairedB] 11 snapshotA =
        some (0, false, none) :=
  ⟨((visitNeighbor_supersedes sampleParsers [snapshotA, repairedB] (fun _ m => (none, m))
      snapshotA (none, []) (sampleNeighbor 2 5 100) (sampleCgi 2) 5 100
      (by decide) (by decide)).1 repairedB (by decide)).trans (by decide),
    by decide⟩

/-! ## Claims on the R-NIB client -/

theorem foldl_e2NodeIDs (c : Client) (oid : String) (objects : List Relation) :
    ∀ acc : List String,
      objects.foldl
        (fun e2NodeIDs object =>
          if HasRCRANFunction c object.TgtEntityID oid then e2NodeIDs ++ [object.TgtEntityID]
          else e2NodeIDs) acc =
        acc ++ nodesWithRCRANFunction c oid objects := by
  induction objects with
  | nil => intro acc; simp [nodesWithRCRANFunction]
  | cons o rest ih =>
    intro acc
    rw [List.foldl_cons, ih]
    by_cases h : HasRCRANFunction c o.TgtEntityID oid = true
    · simp [nodesWithRCRANFunction, h]
    · simp [nodesWithRCRANFunction, h]

/-- What `E2NodeIDs` returns on a listing of `objects`: one empty identifier per
listed relation, followed by the targets of the relations whose node has the RAN
function. -/
theorem E2NodeIDs_eq (c : Client) (oid : String) (objects : List Relation)
    (h : c.ListControlRelations = .ok objects) :
    E2NodeIDs c oid =
      .ok (List.replicate objects.length "" ++ nodesWithRCRANFunction c oid objects) := by
  unfold E2NodeIDs
  rw [h]
  simp only [foldl_e2NodeIDs]

/-- C15: evaluation at the failing input. The listing holds one control relation,
whose node `e2:1` has the RAN function; `E2NodeIDs` returns the empty identifier
followed by `e2:1`, two elements where the one identifier `e2:1` is due. -/
theorem E2NodeIDs_leading_empty_ids :
    nodesWithRCRANFunction (sampleClient "1.3.6.1.4.1.53148.1.1.2.3")
        "1.3.6.1.4.1.53148.1.1.2.3" [⟨"e2:1"⟩] = ["e2:1"] ∧
      E2NodeIDs (sampleClient "1.3.6.1.4.1.53148.1.1.2.3") "1.3.6.1.4.1.53148.1.1.2.3" =
        .ok ["", "e2:1"] := by
  decide

/-! ## A repair is stable -/

theorem UpdatePci_eq (store : List Entry) (key : Key) (pci : int32) :
    (UpdatePci store key pci).1 =
      store.map (fun e => if e.Key = key then e.withPci pci else e) := rfl

theorem foldl_targetEntry_map (kp : MetricKeyParsers) (id : Cgi) (f : Entry → Entry)
    (hf : ∀ e, (f e).Key = e.Key) (store : List Entry) :
    ∀ acc : Option Entry,
      (store.map f).foldl
        (fun targetEntry entry =>
          if isCGIEqual kp id entry.Key.CellGlobalID then some entry else targetEntry)
        (acc.map f) =
      (store.foldl
        (fun targetEntry entry =>
          if isCGIEqual kp id entry.Key.CellGlobalID then some entry else targetEntry)
        acc).map f := by
  induction store with
  | nil => intro acc; rfl
  | cons e rest ih =>
    intro acc
    simp only [List.map_cons, List.foldl_cons, hf e]
    by_cases h : isCGIEqual kp id e.Key.CellGlobalID = true
    · simp only [h, if_true]
      exact ih (some e)
    · simp only [h]
      exact ih acc

theorem getEntryWithNeighborCGI_map (kp : MetricKeyParsers) (id : Cgi) (f : Entry → Entry)
    (hf : ∀ e, (f e).Key = e.Key) (store : List Entry) :
    getEntryWithNeighborCGI kp (store.map f) id = (getEntryWithNeighborCGI kp store id).map f :=
  foldl_targetEntry_map kp id f hf store none

theorem isCGIEqual_of_getEntry (kp : MetricKeyParsers) (store : List Entry) (id : Cgi)
    (e : Entry) (h : getEntryWithNeighborCGI kp store id = some e) :
    isCGIEqual kp id e.Key.CellGlobalID = true := by
  unfold getEntryWithNeighborCGI at h
  rw [foldl_targetEntry] at h
  have hmem := List.mem_of_getLast?_eq_some h
  exact (List.mem_filter.mp hmem).2

theorem getEntryWithNeighborCGI_update (kp : MetricKeyParsers) (store : List Entry)
    (root : Entry) (pci : int32) (id : Cgi)
    (hne : isCGIEqual kp root.Key.CellGlobalID id = false) :
    getEntryWithNeighborCGI kp (UpdatePci store (NewKey root.Key.CellGlobalID) pci).1 id =
      getEntryWithNeighborCGI kp store id := by
  rw [UpdatePci_eq, getEntryWithNeighborCGI_map kp id _ ?_ store]
  · cases hl : getEntryWithNeighborCGI kp store id with
    | none => rfl
    | some e =>
      have heq := isCGIEqual_of_getEntry kp store id e hl
      have hkey : ¬ e.Key = NewKey root.Key.CellGlobalID := by
        intro hk
        rw [hk, isCGIEqual_symm] at heq
        rw [show (NewKey root.Key.CellGlobalID).CellGlobalID = root.Key.CellGlobalID from rfl,
          hne] at heq
        exact absurd heq (by simp)
      simp [hkey]
  · intro e
    by_cases hk : e.Key = NewKey root.Key.CellGlobalID <;> simp [hk, Entry.withPci]

theorem recordPcis_update (kp : MetricKeyParsers) (store : List Entry) (root : Entry)
    (pci : int32) (below below' : Entry → List int32) (hb : ∀ e, below' e = below e)
    (n : NeighborCellItem) :
    recordPcis false kp (UpdatePci store (NewKey root.Key.CellGlobalID) pci).1
        (root.withPci pci) below' n =
      recordPcis false kp store root below n := by
  unfold recordPcis
  cases hf : neighborFields n with
  | none => rfl
  | some f =>
    obtain ⟨cgi, q, arfcn⟩ := f
    have hkey : (root.withPci pci).Key.CellGlobalID = root.Key.CellGlobalID := rfl
    have harf : (root.withPci pci).Value.Metric.ARFCN = root.Value.Metric.ARFCN := rfl
    simp only [hkey, harf]
    by_cases heq : isCGIEqual kp root.Key.CellGlobalID cgi = true
    · simp only [heq, if_true]
    · simp only [Bool.not_eq_true] at heq
      rw [getEntryWithNeighborCGI_update kp store root pci cgi heq]
      cases getEntryWithNeighborCGI kp store cgi <;> simp only [hb]

theorem scopeLevels_update (kp : MetricKeyParsers) (store : List Entry) (root : Entry)
    (pci : int32) (levels : Nat) :
    ∀ e, scopeLevels false kp (UpdatePci store (NewKey root.Key.CellGlobalID) pci).1
        (root.withPci pci) levels e =
      scopeLevels false kp store root levels e := by
  induction levels with
  | zero => intro e; rfl
  | succ l ih =>
    intro e
    simp only [scopeLevels]
    congr 1
    apply List.map_congr_left
    intro n _
    exact recordPcis_update kp store root pci _ _ ih n

theorem occupiedPcis_update (kp : MetricKeyParsers) (store : List Entry) (root : Entry)
    (pci : int32) :
    occupiedPcis kp (UpdatePci store (NewKey root.Key.CellGlobalID) pci).1 (root.withPci pci) =
      occupiedPcis kp store root := by
  unfold occupiedPcis
  rw [scopeLevels_update]
  rfl

theorem free_of_changed (kp : MetricKeyParsers) (range : PciMap → List (int32 × Bool))
    (store : List Entry) (fuel : Nat) (entry : Entry) (p : int32) (err : Option Error)
    (hrange : FairRange range)
    (h : getAvailablePci kp range store fuel entry = some (p, true, err)) :
    ∃ m0, getEmptyPciMap fuel entry.Value.PCIPoolList = some (.ok m0) ∧
      p ∉ occupiedPcis kp store entry := by
  cases h0 : getEmptyPciMap fuel entry.Value.PCIPoolList with
  | none =>
    rw [getAvailablePci_of_none kp range store fuel entry h0] at h
    simp at h
  | some r =>
    cases r with
    | error e =>
      rw [getAvailablePci_of_error kp range store fuel entry e h0] at h
      simp at h
    | ok m0 =>
      refine ⟨m0, rfl, ?_⟩
      obtain ⟨hv, hb, hm0⟩ := getEmptyPciMap_ok fuel _ m0 h0
      subst hm0
      rw [getAvailablePci_of_ok kp range store fuel entry _ h0] at h
      have hget := get_occupancy entry.Value.PCIPoolList hv hb (occupiedPcis kp store entry)
      by_cases hcur : entry.Value.Metric.PCI ∈ occupiedPcis kp store entry
      · rw [hget, if_neg (by simp [hcur])] at h
        cases hfind : (range (markAll (occupiedPcis kp store entry)
            (fillPools entry.Value.PCIPoolList []))).find? (fun kv => !kv.2) with
        | none =>
          rw [hfind] at h
          simp at h
        | some kv =>
          rw [hfind] at h
          simp only [Option.some.injEq, Prod.mk.injEq, true_and] at h
          have hfree : kv.2 = false := by simpa using List.find?_some hfind
          have hmem : kv ∈ markAll (occupiedPcis kp store entry)
              (fillPools entry.Value.PCIPoolList []) :=
            (hrange _).subset (List.mem_of_find?_eq_some hfind)
          have hnd := nodup_keys_markAll (occupiedPcis kp store entry) _
            (nodup_keys_empty_fillPools entry.Value.PCIPoolList)
          have hval := PciMap.get_of_mem _ kv.1 kv.2 hnd hmem
          rw [h.1, hfree, hget] at hval
          simpa using hval
      · rw [hget, if_pos (by simp [hcur])] at h
        simp at h

/-- C18: a repair is stable. If `getAvailablePci` returns `(p, true, nil)` for an
entry, then after `UpdatePci` has set the PCI stored under the entry's key to `p`,
with the rest of the store as it was, `getAvailablePci` on the entry with its
current PCI replaced by `p` returns `(0, false, nil)`. -/
theorem getAvailablePci_stable (kp : MetricKeyParsers) (range : PciMap → List (int32 × Bool))
    (store : List Entry) (fuel : Nat) (entry : Entry) (p : int32) (hrange : FairRange range)
    (h : getAvailablePci kp range store fuel entry = some (p, true, none)) :
    getAvailablePci kp range (UpdatePci store (NewKey entry.Key.CellGlobalID) p).1 fuel
      (entry.withPci p) = some (0, false, none) := by
  obtain ⟨m0, h0, hfree⟩ := free_of_changed kp range store fuel entry p none hrange h
  obtain ⟨hv, hb, hm0⟩ := getEmptyPciMap_ok fuel _ m0 h0
  have h0' : getEmptyPciMap fuel (entry.withPci p).Value.PCIPoolList = some (.ok m0) := h0
  rw [getAvailablePci_of_ok kp range _ fuel (entry.withPci p) m0 h0', occupiedPcis_update, hm0,
    get_occupancy _ hv hb]
  have hp : (entry.withPci p).Value.Metric.PCI = p := rfl
  rw [hp]
  simp [hfree]

/-- Witness of C18: `clashA` is moved from PCI 5 to PCI 0, and the next resolution of
the updated entry on the updated store reports no change. -/
theorem getAvailablePci_stable_witness :
    getAvailablePci sampleParsers insertionOrder [clashA, sampleEntry 2 5 100 [] pool0to10] 7
        clashA = some (0, true, none) ∧
      getAvailablePci sampleParsers insertionOrder
        (UpdatePci [clashA, sampleEntry 2 5 100 [] pool0to10]
          (NewKey clashA.Key.CellGlobalID) 0).1 7 (clashA.withPci 0) = some (0, false, none) :=
  have h : getAvailablePci sampleParsers insertionOrder
      [clashA, sampleEntry 2 5 100 [] pool0to10] 7 clashA = some (0, true, none) := by decide
  ⟨h, getAvailablePci_stable sampleParsers insertionOrder _ 7 clashA 0
    (fun m => List.Perm.refl m) h⟩

/-! ## Errors and termination -/

theorem neighborTraversal_no_error (kp : MetricKeyParsers) (store : List Entry)
    (root entry : Entry) (cDepth : Nat) (m : PciMap) :
    (neighborTraversal kp store root entry cDepth m).1 = none := by
  unfold neighborTraversal
  rw [neighborTraversalLevels_eq]

theorem find_free_eq_none_iff (pools : List PCIPool) (hv : ValidPools pools)
    (hb : BelowMax pools) (range : PciMap → List (int32 × Bool)) (hrange : FairRange range)
    (ps : List int32) :
    (range (markAll ps (fillPools pools []))).find? (fun kv => !kv.2) = none ↔
      ∀ k, InPools pools k → k ∈ ps := by
  have hnd := nodup_keys_markAll ps _ (nodup_keys_empty_fillPools pools)
  rw [List.find?_eq_none]
  constructor
  · intro h k hk
    have hkey : k ∈ PciMap.keys (markAll ps (fillPools pools [])) := by
      rw [mem_keys_markAll, mem_keys_empty_fillPools _ hv hb]
      exact Or.inl hk
    obtain ⟨kv, hkv, hfst⟩ := List.mem_map.mp hkey
    have hval := PciMap.get_of_mem _ kv.1 kv.2 hnd hkv
    have hocc := h kv ((hrange _).mem_iff.mpr hkv)
    rw [get_occupancy _ hv hb] at hval
    rw [← hfst]
    have : kv.2 = true := by simpa using hocc
    rw [this] at hval
    simpa using hval
  · intro h kv hkv
    have hmem := (hrange _).subset hkv
    have hval := PciMap.get_of_mem _ kv.1 kv.2 hnd hmem
    have hkey : kv.1 ∈ PciMap.keys (markAll ps (fillPools pools [])) :=
      List.mem_map.mpr ⟨kv, hmem, rfl⟩
    rw [mem_keys_markAll, mem_keys_empty_fillPools _ hv hb] at hkey
    have hocc : kv.1 ∈ ps := hkey.elim (h kv.1) id
    rw [get_occupancy _ hv hb] at hval
    simp [← hval, hocc]

/-- An error of `getAvailablePci` always comes with PCI 0 and `changed = false`. -/
theorem getAvailablePci_error_result (kp : MetricKeyParsers)
    (range : PciMap → List (int32 × Bool)) (store : List Entry) (fuel : Nat) (entry : Entry)
    (p : int32) (changed : Bool) (err : Error)
    (h : getAvailablePci kp range store fuel entry = some (p, changed, some err)) :
    p = 0 ∧ changed = false := by
  cases h0 : getEmptyPciMap fuel entry.Value.PCIPoolList with
  | none =>
    rw [getAvailablePci_of_none kp range store fuel entry h0] at h
    simp at h
  | some r =>
    cases r with
    | error e =>
      rw [getAvailablePci_of_error kp range store fuel entry e h0] at h
      simp only [Option.some.injEq, Prod.mk.injEq] at h
      exact ⟨h.1.symm, h.2.1.symm⟩
    | ok m0 =>
      rw [getAvailablePci_of_ok kp range store fuel entry m0 h0] at h
      split at h
      · simp at h
      · split at h
        · simp at h
        · simp only [Option.some.injEq, Prod.mk.injEq] at h
          exact ⟨h.1.symm, h.2.1.symm⟩

/-- On the pool lists whose ranges end below the largest `int32`, and with fuel for
the pool, `getAvailablePci` returns an error exactly when some range is reversed,
or the entry's current PCI is marked occupied and so is every integer of the pool. -/
theorem getAvailablePci_error_iff_below_max (kp : MetricKeyParsers)
    (range : PciMap → List (int32 × Bool)) (store : List Entry) (fuel : Nat) (entry : Entry)
    (hrange : FairRange range) (hb : BelowMax entry.Value.PCIPoolList)
    (hf : poolFuel entry.Value.PCIPoolList ≤ fuel) :
    (∃ p changed err, getAvailablePci kp range store fuel entry = some (p, changed, some err)) ↔
      (∃ r ∈ entry.Value.PCIPoolList, r.LowerPci > r.UpperPci) ∨
        (entry.Value.Metric.PCI ∈ occupiedPcis kp store entry ∧
          ∀ k, InPools entry.Value.PCIPoolList k → k ∈ occupiedPcis kp store entry) := by
  by_cases hbad : ∃ r ∈ entry.Value.PCIPoolList, r.LowerPci > r.UpperPci
  · obtain ⟨e, he⟩ := (getEmptyPciMap_error_iff_below_max fuel _ hb hf).mpr hbad
    constructor
    · intro _; exact Or.inl hbad
    · intro _
      exact ⟨0, false, e, getAvailablePci_of_error kp range store fuel entry e he⟩
  · have hv := validPools_of_no_reversed _ hbad
    have h0 := getEmptyPciMap_enough fuel _ hv hb hf
    have hfind := find_free_eq_none_iff _ hv hb range hrange (occupiedPcis kp store entry)
    rw [getAvailablePci_of_ok kp range store fuel entry _ h0, get_occupancy _ hv hb]
    by_cases hcur : entry.Value.Metric.PCI ∈ occupiedPcis kp store entry
    · rw [if_neg (by simp [hcur])]
      cases hfd : (range (markAll (occupiedPcis kp store entry)
          (fillPools entry.Value.PCIPoolList []))).find? (fun kv => !kv.2) with
      | none =>
        constructor
        · intro _; exact Or.inr ⟨hcur, hfind.mp hfd⟩
        · intro _; exact ⟨0, false, poolExhausted, rfl⟩
      | some kv =>
        constructor
        · rintro ⟨p, c, e, h⟩
          simp at h
        · rintro (h | ⟨_, hall⟩)
          · exact absurd h hbad
          · rw [hfind.mpr hall] at hfd
            exact absurd hfd (by simp)
    · rw [if_pos (by simp [hcur])]
      constructor
      · rintro ⟨p, c, e, h⟩
        simp at h
      · rintro (h | ⟨h, _⟩)
        · exact absurd h hbad
        · exact absurd h hcur

/-- C19: `neighborTraversal` never returns an error; evaluation of `getAvailablePci`
at the failing input. The pool list `brokenPools` contains the reversed range
`[5, 3]`, but its first range ends at the largest `int32`, the loop over it does
not end, and `getAvailablePci` returns no error, whatever the fuel. -/
theorem getAvailablePci_error_not_returned :
    (∀ (kp : MetricKeyParsers) (store : List Entry) (root entry : Entry) (cDepth : Nat)
        (m : PciMap), (neighborTraversal kp store root entry cDepth m).1 = none) ∧
      (∃ r ∈ brokenPools, r.LowerPci > r.UpperPci) ∧
      ∀ fuel : Nat, getAvailablePci sampleParsers insertionOrder [] fuel
        (sampleEntry 1 5 100 [sampleNeighbor 2 5 100] brokenPools) = none := by
  refine ⟨neighborTraversal_no_error, by decide, fun fuel => ?_⟩
  apply getAvailablePci_of_none
  have hnot : ¬ (⟨2147483640, 2147483647⟩ : PCIPool).LowerPci >
      (⟨2147483640, 2147483647⟩ : PCIPool).UpperPci := by decide
  show getEmptyPciMapFrom fuel brokenPools [] = none
  simp only [brokenPools, getEmptyPciMapFrom, if_neg hnot]
  rw [pciRangeLoop_none_of_max _ (by decide)]

theorem pciRangeLoop_short (upper : int32) (hu : upper.val < 2147483647) :
    ∀ (fuel n : Nat) (i : int32) (m : PciMap), i.val + n = upper.val + 1 → fuel < n →
      pciRangeLoop fuel i upper m = none := by
  intro fuel
  induction fuel with
  | zero =>
    intro n i m hn hf
    have hi : i ≤ upper := by
      rw [int32.le_def]; omega
    simp [pciRangeLoop, hi]
  | succ f ih =>
    intro n i m hn hf
    have hi : i ≤ upper := by
      rw [int32.le_def]; omega
    have hinc : i.inc.val = i.val + 1 := int32.inc_val i (by omega)
    cases n with
    | zero => omega
    | succ n =>
      have := ih n i.inc (PciMap.set m i false) (by rw [hinc]; omega) (by omega)
      simp [pciRangeLoop, hi, this]

/-- Below the largest `int32` the range loop ends after exactly
`UpperPci - LowerPci + 1` insertions: that many iterations suffice and fewer do not. -/
theorem pciRangeLoop_exact_below_max (r : PCIPool) (hr : r.LowerPci ≤ r.UpperPci)
    (hu : r.UpperPci < int32.max) (m : PciMap) :
    pciRangeLoop r.span r.LowerPci r.UpperPci m = some (insertRange r.span r.LowerPci m) ∧
      ∀ fuel, fuel < r.span → pciRangeLoop fuel r.LowerPci r.UpperPci m = none :=
  ⟨pciRangeLoop_enough r.UpperPci ((int32.lt_def _ _).mp hu) r.span r.span r.LowerPci m
      (PCIPool.span_spec r hr) (le_refl _),
    fun fuel hf => pciRangeLoop_short r.UpperPci ((int32.lt_def _ _).mp hu) fuel r.span
      r.LowerPci m (PCIPool.span_spec r hr) hf⟩

/-- C20: evaluation at the failing input. For the range `[2147483647, 2147483647]`
the increment of the counter after the first insertion wraps to `-2147483648`,
which does not exceed `UpperPci`; the loop never ends, from whatever counter and
with whatever fuel, and `getEmptyPciMap` does not terminate on this valid pool list. -/
theorem pciRangeLoop_wraps_at_max :
    int32.max.inc.val = -2147483648 ∧ int32.max.inc ≤ int32.max ∧
      ValidPools [⟨int32.max, int32.max⟩] ∧
      (∀ (fuel : Nat) (i : int32) (m : PciMap), pciRangeLoop fuel i int32.max m = none) ∧
      ∀ fuel : Nat, getEmptyPciMapFrom fuel [⟨int32.max, int32.max⟩] [] = none := by
  refine ⟨by decide, by decide, by decide, pciRangeLoop_none_of_max int32.max rfl, fun fuel => ?_⟩
  have hnot : ¬ int32.max > int32.max := by decide
  simp only [getEmptyPciMapFrom, if_neg hnot,
    pciRangeLoop_none_of_max int32.max rfl fuel int32.max []]

/-- C13: evaluation at the failing input. The only neighbor record of `maxPoolA`
carries ARFCN 200 and the only live store entry is on ARFCN 200, both different
from the root's ARFCN 100, and `neighborTraversal` marks nothing: it returns every
map as it was given. But the pool of `maxPoolA` is the valid range
`[2147483647, 2147483647]`, on which `getEmptyPciMap` does not return, so
`getAvailablePci` returns nothing, whatever the fuel, where `changed = false` is due. -/
theorem getAvailablePci_other_arfcn_never_returns :
    (∀ n1 ∈ maxPoolA.Value.Neighbors, ∀ c p a, neighborFields n1 = some (c, p, a) →
      a ≠ maxPoolA.Value.Metric.ARFCN) ∧
    (∀ e ∈ [loneBandB], e.Value.Metric.ARFCN ≠ maxPoolA.Value.Metric.ARFCN) ∧
    ValidPools maxPoolA.Value.PCIPoolList ∧
    (∀ m, neighborTraversal sampleParsers [loneBandB] maxPoolA maxPoolA 1 m = (none, m)) ∧
    ∀ fuel : Nat, getAvailablePci sampleParsers insertionOrder [loneBandB] fuel maxPoolA = none := by
  have h1 : ∀ n1 ∈ maxPoolA.Value.Neighbors, ∀ c p a, neighborFields n1 = some (c, p, a) →
      a ≠ maxPoolA.Value.Metric.ARFCN := by
    intro n1 hn1 c p a hf
    have hn : n1 = sampleNeighbor 2 5 200 := by simpa [maxPoolA, sampleEntry] using hn1
    subst hn
    have : (c, p, a) = (sampleCgi 2, (5 : int32), (200 : int32)) := (Option.some.inj hf).symm
    rw [(Prod.mk.inj (Prod.mk.inj this).2).2]
    decide
  have h2 : ∀ n1 ∈ maxPoolA.Value.Neighbors, ∀ e1,
      resolveRecord sampleParsers [loneBandB] maxPoolA n1 = some e1 →
      ∀ n2 ∈ e1.Value.Neighbors, ∀ c p a, neighborFields n2 = some (c, p, a) →
        a ≠ maxPoolA.Value.Metric.ARFCN := by
    intro n1 hn1 e1 he1 n2 hn2
    have hn : n1 = sampleNeighbor 2 5 200 := by simpa [maxPoolA, sampleEntry] using hn1
    subst hn
    have he : e1 = loneBandB := by
      have : resolveRecord sampleParsers [loneBandB] maxPoolA (sampleNeighbor 2 5 200) =
          some loneBandB := by decide
      rw [this] at he1
      exact (Option.some.inj he1).symm
    subst he
    simp [loneBandB, sampleEntry] at hn2
  refine ⟨h1, by decide, by decide, ?_, fun fuel => ?_⟩
  · intro m
    rw [neighborTraversal_root,
      occupiedPcis_eq_nil_of_arfcn_ne sampleParsers [loneBandB] maxPoolA h1 h2, markAll_nil]
  · apply getAvailablePci_of_none
    have hnot : ¬ int32.max > int32.max := by decide
    show getEmptyPciMapFrom fuel [⟨int32.max, int32.max⟩] [] = none
    simp only [getEmptyPciMapFrom, if_neg hnot,
      pciRangeLoop_none_of_max int32.max rfl fuel int32.max []]

end OnosPci
